import Mathlib

/-!
# Hyperscan.Dotnet.Native — `Source.cpp`

A shallow embedding of the native wrapper around the Hyperscan regex engine:
the pattern-file parser (`parseFlags`, `parseFile`), the match callback
(`onMatch`), the block-mode scan entry point (`scan_single`) and the life of
the engine handle (`create_hyperscan_engine`, `compile_block_db`, `clean`).

Conventions of the embedding

* a `std::string` is the list of its characters (`Str`);
* every path of the source that ends the process (`exit(-1)` after a message on
  `cerr`, or a C++ exception that nothing catches) is a value of `Failure`,
  returned through `Except`;
* `unsigned` / `int` values are `Nat` / `Int` with the reductions modulo `2^32`
  written out where the source converts or increments them;
* the Hyperscan library itself is external: the constants of its headers are
  the fields of `HsHeader`, what one `hs_scan` call reports is a `ScanRun`, what
  it answers to a compilation or a scratch allocation is an `HsOracle`, and
  what it has allocated and not yet freed is an `HsHeap`.
-/

namespace Hyperscan

/-- A `std::string`, as the sequence of its characters. -/
abbrev Str := List Char

/-- The constants of the Hyperscan headers (`hs/hs_common.h`, `hs/hs_compile.h`)
that `Source.cpp` uses.  The headers are not part of the repository, so the
values are parameters of the embedding. -/
structure HsHeader where
  HS_SUCCESS : Int
  HS_SCAN_TERMINATED : Int
  HS_FLAG_CASELESS : Nat
  HS_FLAG_MULTILINE : Nat
  HS_FLAG_DOTALL : Nat
  HS_FLAG_SINGLEMATCH : Nat
  HS_FLAG_ALLOWEMPTY : Nat
  HS_FLAG_UTF8 : Nat
  HS_FLAG_UCP : Nat
  HS_MODE_BLOCK : Nat

/-- The values the Hyperscan 5 headers give to these constants. -/
def hs_h : HsHeader where
  HS_SUCCESS := 0
  HS_SCAN_TERMINATED := -3
  HS_FLAG_CASELESS := 1
  HS_FLAG_MULTILINE := 4
  HS_FLAG_DOTALL := 2
  HS_FLAG_SINGLEMATCH := 8
  HS_FLAG_ALLOWEMPTY := 16
  HS_FLAG_UTF8 := 32
  HS_FLAG_UCP := 64
  HS_MODE_BLOCK := 1

/-- The ways a call into `Source.cpp` ends the process instead of returning. -/
inductive Failure where
  /-- The pattern file cannot be opened: message on `cerr`, then `exit(-1)` (line 230). -/
  | cantOpenPatternFile
  /-- Message `ERROR: Could not parse line i`, then `exit(-1)` (line 248). -/
  | couldNotParseLine (i : Nat)
  /-- Exception `std::invalid_argument` out of `std::stoi`; nothing catches it (line 253). -/
  | stoiInvalidArgument
  /-- Exception `std::out_of_range` out of `std::stoi`; nothing catches it (line 253). -/
  | stoiOutOfRange
  /-- Message `ERROR: no trailing / char`, then `exit(-1)` (line 260). -/
  | noTrailingSlash
  /-- Exception `std::out_of_range` out of `std::string::substr` (position beyond the end). -/
  | substrOutOfRange
  /-- Message `Unsupported flag c`, then `exit(-1)` (line 219). -/
  | unsupportedFlag (c : Char)
  /-- Message `ERROR: No input file or no Hyperscan engine has been compiled.`, then
  `exit(-1)` (line 177). -/
  | noInputOrNoEngine
  /-- Message `ERROR: Unable to scan data. Exiting.`, then `exit(-1)` (line 187). -/
  | unableToScan
  /-- Message `ERROR: ... failed compilation with error ...` of `buildDatabase`, then
  `exit(-1)` (line 139); `expression` is the index the engine reports. -/
  | compilationFailed (expression : Int)
  /-- Message `ERROR: could not allocate scratch space. Exiting.`, then `exit(-1)`
  (lines 73 and 91). -/
  | couldNotAllocateScratch
  deriving DecidableEq, Repr

deriving instance DecidableEq for Except

/-! ## Machine integers -/

/-- Number of values of an `unsigned int` / `int`. -/
def UINT_RANGE : Nat := 2 ^ 32

/-- Largest `int`. -/
def INT_MAX : Int := 2 ^ 31 - 1

/-- Smallest `int`. -/
def INT_MIN : Int := -(2 ^ 31)

/-- Largest `size_t` value, which is also `std::string::npos` (64-bit build). -/
def npos : Nat := 2 ^ 64 - 1

/-- Conversion `unsigned int → int` (`(*matchedId) = id` in `onMatch`):
the value with the same 32-bit pattern. -/
def int_of_unsigned (u : Nat) : Int :=
  if u % UINT_RANGE < 2 ^ 31 then ((u % UINT_RANGE : Nat) : Int)
  else ((u % UINT_RANGE : Nat) : Int) - 2 ^ 32

/-- Conversion `int → unsigned int` (`unsigned id = std::stoi(..)`):
reduction modulo `2^32`. -/
def unsigned_of_int (r : Int) : Nat := (r % 2 ^ 32).toNat

/-- Subtraction on `size_t` (`flagsStart - 1`): `a - b`, wrapping around below
zero. -/
def size_sub (a b : Nat) : Nat := if b ≤ a then a - b else npos + 1 + a - b

/-! ## `std::string` operations used by the parser -/

/-- Method `s.find_first_of(c)`: index of the first occurrence of `c`, `none` for `npos`. -/
def find_first_of : Str → Char → Option Nat
  | [], _ => none
  | x :: xs, c => if x = c then some 0 else (find_first_of xs c).map (· + 1)

/-- Method `s.find_last_of(c)`: index of the last occurrence of `c`, `none` for `npos`. -/
def find_last_of : Str → Char → Option Nat
  | [], _ => none
  | x :: xs, c =>
    match find_last_of xs c with
    | some k => some (k + 1)
    | none => if x = c then some 0 else none

/-- Method `s.substr(pos, count)`: throws when `pos > s.size()`, otherwise the
characters from `pos` on, `count` of them or as many as there are. -/
def substr (s : Str) (pos count : Nat) : Except Failure Str :=
  if pos > s.length then .error .substrOutOfRange
  else .ok ((s.drop pos).take count)

/-- Method `s.substr(pos)`, the count left to its default: throws when
`pos > s.size()`, otherwise everything from `pos` to the end. -/
def substr_from (s : Str) (pos : Nat) : Except Failure Str :=
  if pos > s.length then .error .substrOutOfRange
  else .ok (s.drop pos)

/-- Method `s.c_str()`, read back as a C string: the characters before the first NUL. -/
def c_str (s : Str) : Str := s.takeWhile (· ≠ '\x00')

/-- Function `isspace` of the C library, in the C locale. -/
def isspace (c : Char) : Bool :=
  c = ' ' || c = '\t' || c = '\n' || c = '\x0b' || c = '\x0c' || c = '\r'

/-- Function `isdigit` of the C library. -/
def isdigit (c : Char) : Bool := '0' ≤ c && c ≤ '9'

/-- Value of a run of decimal digits, most significant first. -/
def digitsValue (ds : Str) : Nat :=
  ds.foldl (fun acc c => acc * 10 + (c.toNat - '0'.toNat)) 0

/-- Function `std::stoi(str)` of the C++ standard library (base 10, via `strtol`):
leading white space is skipped, one optional sign is read, then the longest run
of decimal digits; whatever follows is ignored.  No digit: `invalid_argument`.
Value outside `int`: `out_of_range`. -/
def stoi (str : Str) : Except Failure Int :=
  let s1 := str.dropWhile isspace
  let neg := s1.head? = some '-'
  let s2 := if s1.head? = some '-' ∨ s1.head? = some '+' then s1.tail else s1
  let ds := s2.takeWhile isdigit
  if ds = [] then .error .stoiInvalidArgument
  else
    let v : Int := if neg then -(digitsValue ds : Int) else (digitsValue ds : Int)
    if v < INT_MIN ∨ v > INT_MAX then .error .stoiOutOfRange else .ok v

/-! ## `parseFlags` (lines 198–224) -/

/-- The `for`/`switch` loop of `parseFlags`, `flags` being the accumulator. -/
def parseFlagsLoop (H : HsHeader) : Str → Nat → Except Failure Nat
  | [], flags => .ok flags
  | c :: cs, flags =>
    if c = 'i' then parseFlagsLoop H cs (flags ||| H.HS_FLAG_CASELESS)
    else if c = 'm' then parseFlagsLoop H cs (flags ||| H.HS_FLAG_MULTILINE)
    else if c = 's' then parseFlagsLoop H cs (flags ||| H.HS_FLAG_DOTALL)
    else if c = 'H' then parseFlagsLoop H cs (flags ||| H.HS_FLAG_SINGLEMATCH)
    else if c = 'V' then parseFlagsLoop H cs (flags ||| H.HS_FLAG_ALLOWEMPTY)
    else if c = '8' then parseFlagsLoop H cs (flags ||| H.HS_FLAG_UTF8)
    else if c = 'W' then parseFlagsLoop H cs (flags ||| H.HS_FLAG_UCP)
    else if c = '\r' then parseFlagsLoop H cs flags
    else .error (.unsupportedFlag c)

/-- Function `parseFlags(flagsStr)`: the loop started from `flags = 0`. -/
def parseFlags (H : HsHeader) (flagsStr : Str) : Except Failure Nat :=
  parseFlagsLoop H flagsStr 0

/-! ## `parseFile` (lines 226–272) -/

/-- The three parallel vectors `patterns`, `flags`, `ids` that `parseFile` fills. -/
structure Vectors where
  patterns : List Str
  flags : List Nat
  ids : List Nat
  deriving DecidableEq, Repr

/-- The vectors as `compile_block_db` declares them: all empty. -/
def Vectors.empty : Vectors := ⟨[], [], []⟩

/-- The strings that the successive `getline(inFile, line)` calls of the loop
return until `inFile.eof()` holds: the pieces of the stream between newline
characters.  A stream that ends in a newline (or is empty) gives a final empty
string: that `getline` call extracts nothing and sets `eofbit`. -/
def getlines : Str → List Str
  | [] => [[]]
  | c :: cs =>
    if c = '\n' then [] :: getlines cs
    else
      match getlines cs with
      | [] => [[c]]
      | l :: ls => (c :: l) :: ls

/-- The test of line 239: `line.empty() || line[0] == '#'`. -/
def skipped (line : Str) : Bool :=
  line.isEmpty || line.head? = some '#'

/-- Lines 246–266 of the loop body: from a line that is not skipped, the
pattern, its flags and its id; `i` is the loop counter, used in the message. -/
def parseEntry (H : HsHeader) (line : Str) (i : Nat) : Except Failure (Str × Nat × Nat) :=
  match find_first_of line ':' with
  | none => .error (.couldNotParseLine i)
  | some colonIdx =>
    match substr line 0 colonIdx with
    | .error e => .error e
    | .ok idStr =>
      match stoi (c_str idStr) with
      | .error e => .error e
      | .ok r =>
        let id := unsigned_of_int r
        match substr_from line (colonIdx + 1) with
        | .error e => .error e
        | .ok expr =>
          match find_last_of expr '/' with
          | none => .error .noTrailingSlash
          | some flagsStart =>
            match substr expr 1 (size_sub flagsStart 1) with
            | .error e => .error e
            | .ok pcre =>
              match substr expr (flagsStart + 1) (expr.length - flagsStart) with
              | .error e => .error e
              | .ok flagsStr =>
                match parseFlags H flagsStr with
                | .error e => .error e
                | .ok flag => .ok (pcre, flag, id)

/-- One iteration of the loop body (lines 235–270) on the vectors. -/
def parseLine (H : HsHeader) (line : Str) (i : Nat) (v : Vectors) : Except Failure Vectors :=
  if skipped line then .ok v
  else
    match parseEntry H line i with
    | .error e => .error e
    | .ok (pcre, flag, id) =>
      .ok ⟨v.patterns ++ [pcre], v.flags ++ [flag], v.ids ++ [id]⟩

/-- The `for (unsigned i = 1; !inFile.eof(); ++i)` loop over the lines read. -/
def parseLoop (H : HsHeader) : List Str → Nat → Vectors → Except Failure Vectors
  | [], _, v => .ok v
  | line :: rest, i, v =>
    match parseLine H line i v with
    | .error e => .error e
    | .ok v1 => parseLoop H rest ((i + 1) % UINT_RANGE) v1

/-- Function `parseFile(filename, patterns, flags, ids)`; `file` is what opening
`filename` gives: `none` when the stream is not `good()`, else the characters
the stream delivers. -/
def parseFile (H : HsHeader) (file : Option Str) (v : Vectors) : Except Failure Vectors :=
  match file with
  | none => .error .cantOpenPatternFile
  | some content => parseLoop H (getlines content) 1 v

/-! ## The match callback and `scan_single` (lines 46–53, 174–192) -/

/-- A match reported by the engine: the arguments of one callback invocation. -/
structure MatchEvent where
  id : Nat
  from_ : Nat
  to_ : Nat
  flags : Nat
  deriving DecidableEq, Repr

/-- What one `hs_scan` call of the external engine does: the matches it reports,
in order, and the status it returns when no callback stops it. -/
structure ScanRun where
  events : List MatchEvent
  status : Int
  deriving DecidableEq, Repr

/-- Callback `onMatch(id, from, to, flags, ctx)`: the `int` behind `ctx` on entry is the
last argument; the result is the return value and the `int` behind `ctx` on
exit. -/
def onMatch (id _from _to _flags : Nat) (_matchedId : Int) : Int × Int :=
  (0, int_of_unsigned id)

/-- The callback protocol of `hs_scan`: every match is handed to the callback;
a non-zero answer stops the scan with `HS_SCAN_TERMINATED`. -/
def hs_scan (H : HsHeader) (run : ScanRun)
    (onEvent : Nat → Nat → Nat → Nat → Int → Int × Int) : List MatchEvent → Int → Int × Int
  | [], ctx => (run.status, ctx)
  | e :: es, ctx =>
    if (onEvent e.id e.from_ e.to_ e.flags ctx).1 ≠ 0 then
      (H.HS_SCAN_TERMINATED, (onEvent e.id e.from_ e.to_ e.flags ctx).2)
    else hs_scan H run onEvent es (onEvent e.id e.from_ e.to_ e.flags ctx).2

/-- Handle of a compiled database (`hs_database_t*`), `none` being `nullptr`. -/
abbrev hs_database_ptr := Option Nat

/-- Handle of a scratch region (`hs_scratch_t*`), `none` being `nullptr`. -/
abbrev hs_scratch_ptr := Option Nat

/-- The members of `class HyperscanEngine`. -/
structure HyperscanEngine where
  db : hs_database_ptr
  scratch : hs_scratch_ptr
  deriving DecidableEq, Repr

/-- Function `create_hyperscan_engine()`: `new HyperscanEngine()`. -/
def create_hyperscan_engine : HyperscanEngine := ⟨none, none⟩

/-- Function `scan_single(engine, data)`; `engine` and `data` are `none` for `nullptr`,
and `run` is what the engine reports for this database and input. -/
def scan_single (H : HsHeader) (engine : Option HyperscanEngine) (data : Option Str)
    (run : ScanRun) : Except Failure Int :=
  match data, engine with
  | some _, some e =>
    match e.db with
    | none => .error .noInputOrNoEngine
    | some _ =>
      let matchId : Int := -1
      let r := hs_scan H run onMatch run.events matchId
      if r.1 ≠ H.HS_SUCCESS then .error .unableToScan else .ok r.2
  | _, _ => .error .noInputOrNoEngine

/-! ## The engine handle (lines 55–103, 114–172, 194–196)

The databases and scratch regions live in the external engine.  `HsHeap` is
its resource account: what has been allocated and not yet freed.  What the
engine answers to a compilation or to a scratch allocation is an `HsOracle`. -/

/-- The error detail `hs_compile_error_t` that a failed compilation reports. -/
structure hs_compile_error_t where
  message : Str
  expression : Int
  deriving DecidableEq, Repr

/-- The ways one `hs_alloc_scratch(db, &scratch)` call can go.  Success: the
region given is large enough for the database and is kept, or a new region is
allocated and the one given, if any, is freed.  Failure: nothing was touched,
or the region given was already freed and the pointer is left null. -/
inductive ScratchOutcome where
  | kept
  | replaced
  | failedUntouched
  | failedFreed
  deriving DecidableEq, Repr

/-- What the external engine answers: to `hs_compile_multi` on the expressions,
flags, ids and mode given (`none` for `HS_SUCCESS`, else the error detail), and
to `hs_alloc_scratch` on the database and scratch pointer given. -/
structure HsOracle where
  compile_multi : List Str → List Nat → List Nat → Nat → Option hs_compile_error_t
  alloc_scratch : Nat → hs_scratch_ptr → ScratchOutcome

/-- Resource account of the external engine: the databases and the scratch
regions allocated and not yet freed, and the next handle it will give out. -/
structure HsHeap where
  next : Nat
  databases : List Nat
  scratches : List Nat
  deriving DecidableEq, Repr

/-- Engine call `hs_free_scratch(scratch)`: a null pointer is accepted and
ignored. -/
def hs_free_scratch (scratch : hs_scratch_ptr) (heap : HsHeap) : HsHeap :=
  match scratch with
  | none => heap
  | some s => { heap with scratches := heap.scratches.erase s }

/-- Engine call `hs_free_database(db)`: a null pointer is accepted and
ignored. -/
def hs_free_database (db : hs_database_ptr) (heap : HsHeap) : HsHeap :=
  match db with
  | none => heap
  | some d => { heap with databases := heap.databases.erase d }

/-- Engine call `hs_compile_multi(..., &db, &compileErr)`: on success a new
database is allocated. -/
def hs_compile_multi (O : HsOracle) (expressions : List Str) (flags ids : List Nat)
    (mode : Nat) (heap : HsHeap) : Except hs_compile_error_t (Nat × HsHeap) :=
  match O.compile_multi expressions flags ids mode with
  | some compileErr => .error compileErr
  | none =>
    .ok (heap.next, { heap with next := heap.next + 1, databases := heap.next :: heap.databases })

/-- Engine call `hs_alloc_scratch(db, &scratch)`: whether it returned
`HS_SUCCESS`, the pointer it leaves in `scratch`, and the account. -/
def hs_alloc_scratch (O : HsOracle) (db : Nat) (scratch : hs_scratch_ptr) (heap : HsHeap) :
    Bool × hs_scratch_ptr × HsHeap :=
  match O.alloc_scratch db scratch, scratch with
  | .kept, some s => (true, some s, heap)
  | .kept, none =>
    (true, some heap.next, { heap with next := heap.next + 1, scratches := heap.next :: heap.scratches })
  | .replaced, _ =>
    (true, some heap.next,
      { hs_free_scratch scratch heap with
        next := heap.next + 1
        scratches := heap.next :: (hs_free_scratch scratch heap).scratches })
  | .failedUntouched, _ => (false, scratch, heap)
  | .failedFreed, _ => (false, none, hs_free_scratch scratch heap)

/-- Function `buildDatabase(expressions, flags, ids, mode)` (lines 114–142): the
error detail is freed again before `exit(-1)`, so it leaves no trace in the
account. -/
def buildDatabase (O : HsOracle) (expressions : List Str) (flags ids : List Nat)
    (mode : Nat) (heap : HsHeap) : Except Failure (Nat × HsHeap) :=
  match hs_compile_multi O expressions flags ids mode heap with
  | .error compileErr => .error (.compilationFailed compileErr.expression)
  | .ok r => .ok r

/-- How a call on a handle stopped, by returning (`failure = none`) or by ending
the process, and the members of the handle and the account at that moment. -/
structure Stop where
  failure : Option Failure
  engine : HyperscanEngine
  heap : HsHeap
  deriving DecidableEq, Repr

/-- Method `HyperscanEngine::set_database(database)` (lines 85–94). -/
def HyperscanEngine.set_database (O : HsOracle) (self : HyperscanEngine) (database : Nat)
    (heap : HsHeap) : Stop :=
  let r := hs_alloc_scratch O database self.scratch heap
  if r.1 = false then
    ⟨some .couldNotAllocateScratch, ⟨some database, r.2.1⟩, r.2.2⟩
  else ⟨none, ⟨some database, r.2.1⟩, r.2.2⟩

/-- Function `compile_block_db(engine, pattern_file)` (lines 148–172);
`pattern_file` is what opening the file gives, as for `parseFile`. -/
def compile_block_db (H : HsHeader) (O : HsOracle) (engine : HyperscanEngine)
    (pattern_file : Option Str) (heap : HsHeap) : Stop :=
  match parseFile H pattern_file Vectors.empty with
  | .error f => ⟨some f, engine, heap⟩
  | .ok v =>
    match buildDatabase O (v.patterns.map c_str) v.flags v.ids H.HS_MODE_BLOCK heap with
    | .error f => ⟨some f, engine, heap⟩
    | .ok (db, heap1) => engine.set_database O db heap1

/-- Destructor `HyperscanEngine::~HyperscanEngine()` (lines 78–83): frees the
scratch region, then the database. -/
def HyperscanEngine.destructor (self : HyperscanEngine) (heap : HsHeap) : HsHeap :=
  hs_free_database self.db (hs_free_scratch self.scratch heap)

/-- Function `clean(engine)` (lines 194–196): `delete engine`, which does nothing
on `nullptr` and otherwise runs the destructor.  No path of it ends the
process. -/
def clean (engine : Option HyperscanEngine) (heap : HsHeap) : Except Failure HsHeap :=
  match engine with
  | none => .ok heap
  | some e => .ok (e.destructor heap)

/-- An engine that compiles every pattern set and, for scratch space, keeps the
region it is given when there is one. -/
def obligingOracle : HsOracle where
  compile_multi := fun _ _ _ _ => none
  alloc_scratch := fun _ _ => .kept

/-- An engine that compiles every pattern set and fails every scratch
allocation without touching anything. -/
def noScratchOracle : HsOracle where
  compile_multi := fun _ _ _ _ => none
  alloc_scratch := fun _ _ => .failedUntouched

/-- The account of an engine that has allocated nothing yet. -/
def HsHeap.empty : HsHeap := ⟨0, [], []⟩

/-! ## Vocabulary of the statements -/

/-- The modifier bit of one flag character: the `switch` table of `parseFlags`
read as a function, carriage return and every other character giving no bit. -/
def flagBit (H : HsHeader) (c : Char) : Nat :=
  if c = 'i' then H.HS_FLAG_CASELESS
  else if c = 'm' then H.HS_FLAG_MULTILINE
  else if c = 's' then H.HS_FLAG_DOTALL
  else if c = 'H' then H.HS_FLAG_SINGLEMATCH
  else if c = 'V' then H.HS_FLAG_ALLOWEMPTY
  else if c = '8' then H.HS_FLAG_UTF8
  else if c = 'W' then H.HS_FLAG_UCP
  else 0

/-- Bitwise OR of the modifier bits of the characters of a string. -/
def flagsUnion (H : HsHeader) (s : Str) : Nat :=
  (s.map (flagBit H)).foldr (· ||| ·) 0

/-- The seven modifier characters. -/
def modifierChars : List Char := ['i', 'm', 's', 'H', 'V', '8', 'W']

/-- The characters `parseFlags` accepts: the modifiers and carriage return. -/
def acceptedFlagChars : List Char := '\r' :: modifierChars

/-- The text `std::stoi` reads its digits from: what follows the leading white
space and one optional sign. -/
def afterSign (s : Str) : Str :=
  if (s.dropWhile isspace).head? = some '-' ∨ (s.dropWhile isspace).head? = some '+' then
    (s.dropWhile isspace).tail
  else s.dropWhile isspace

/-- The text does not begin, after white space and an optional sign, with a
decimal digit. -/
def noLeadingDigit (s : Str) : Bool :=
  match (afterSign s).head? with
  | none => true
  | some c => !isdigit c

/-- A pattern source written from its lines: the lines separated by newlines. -/
def joinLines : List Str → Str
  | [] => []
  | [l] => l
  | l :: ls => l ++ '\n' :: joinLines ls

/-- The kind of a failure: the failure without the line number it reports. -/
def Failure.kind : Failure → Failure
  | .couldNotParseLine _ => .couldNotParseLine 0
  | f => f

/-- The kind of outcome of a parse: its vectors, or the kind of its failure. -/
def outcomeKind : Except Failure Vectors → Except Failure Vectors
  | .ok v => .ok v
  | .error f => .error f.kind

/-! ## The scan reduction -/

theorem onMatch_continue (id fr t fl : Nat) (ctx : Int) : (onMatch id fr t fl ctx).1 = 0 := rfl

theorem hs_scan_onMatch_nil (H : HsHeader) (run : ScanRun) (ctx : Int) :
    hs_scan H run onMatch [] ctx = (run.status, ctx) := rfl

theorem hs_scan_onMatch_snoc (H : HsHeader) (run : ScanRun) (pre : List MatchEvent)
    (last : MatchEvent) (ctx : Int) :
    hs_scan H run onMatch (pre ++ [last]) ctx = (run.status, int_of_unsigned last.id) := by
  induction pre generalizing ctx with
  | nil => simp [hs_scan, onMatch]
  | cons e es ih =>
    have h := ih (onMatch e.id e.from_ e.to_ e.flags ctx).2
    simpa [hs_scan, onMatch] using h

theorem unsigned_of_int_of_unsigned (u : Nat) (hu : u < 2 ^ 32) :
    unsigned_of_int (int_of_unsigned u) = u := by
  unfold unsigned_of_int int_of_unsigned UINT_RANGE
  rw [Nat.mod_eq_of_lt hu]
  split
  · omega
  · omega

theorem int_of_unsigned_small (u : Nat) (hu : u < 2 ^ 31) : int_of_unsigned u = (u : Int) := by
  unfold int_of_unsigned UINT_RANGE
  have h : u % 2 ^ 32 = u := Nat.mod_eq_of_lt (by omega)
  rw [h, if_pos hu]

theorem scan_single_ready (H : HsHeader) (e : HyperscanEngine) (d : Str) (db : Nat)
    (run : ScanRun) (hready : e.db = some db) (hok : run.status = H.HS_SUCCESS) :
    scan_single H (some e) (some d) run = .ok (hs_scan H run onMatch run.events (-1)).2 := by
  have h1 : (hs_scan H run onMatch run.events (-1)).1 = H.HS_SUCCESS := by
    rcases List.eq_nil_or_concat run.events with h | ⟨pre, last, h⟩
    · rw [h, hs_scan_onMatch_nil]; exact hok
    · rw [h, List.concat_eq_append, hs_scan_onMatch_snoc]; exact hok
  simp [scan_single, hready, h1]

/-- The scan reduction: on a handle that holds a database, when the scan of the engine succeeds,
`scan_single` returns `-1` if no event was delivered, and otherwise the id of
the last event delivered, whatever the earlier events are.  The id comes back
through the `int` return type: it is the `int` with the 32-bit pattern of the id,
from which the id is read back exactly, and it is the id itself below `2^31`.
Every event is consumed because `onMatch` always answers 0 (continue). -/
theorem scan_single_returns_last_id (H : HsHeader) (e : HyperscanEngine) (d : Str)
    (db : Nat) (run : ScanRun) (hready : e.db = some db)
    (hok : run.status = H.HS_SUCCESS) :
    (run.events = [] → scan_single H (some e) (some d) run = .ok (-1)) ∧
    (∀ (pre : List MatchEvent) (last : MatchEvent), run.events = pre ++ [last] →
      scan_single H (some e) (some d) run = .ok (int_of_unsigned last.id) ∧
      (last.id < 2 ^ 32 → unsigned_of_int (int_of_unsigned last.id) = last.id) ∧
      (last.id < 2 ^ 31 → scan_single H (some e) (some d) run = .ok (last.id : Int))) ∧
    (∀ (ev : MatchEvent) (ctx : Int), (onMatch ev.id ev.from_ ev.to_ ev.flags ctx).1 = 0) := by
  refine ⟨?_, ?_, fun ev ctx => rfl⟩
  · intro h
    rw [scan_single_ready H e d db run hready hok, h, hs_scan_onMatch_nil]
  · intro pre last h
    have hs : scan_single H (some e) (some d) run = .ok (int_of_unsigned last.id) := by
      rw [scan_single_ready H e d db run hready hok, h, hs_scan_onMatch_snoc]
    refine ⟨hs, unsigned_of_int_of_unsigned last.id, fun hlt => ?_⟩
    rw [hs, int_of_unsigned_small last.id hlt]

/-- The scan reduction on three events with ids 7, 9 and 42 on a compiled handle. -/
theorem scan_single_returns_last_id_witness :
    scan_single hs_h (some ⟨some 1, some 2⟩) (some ['a', 'b'])
      ⟨[⟨7, 0, 1, 0⟩, ⟨9, 0, 2, 0⟩, ⟨42, 1, 2, 0⟩], 0⟩ = .ok 42 :=
  ((scan_single_returns_last_id hs_h ⟨some 1, some 2⟩ ['a', 'b'] 1
      ⟨[⟨7, 0, 1, 0⟩, ⟨9, 0, 2, 0⟩, ⟨42, 1, 2, 0⟩], 0⟩ rfl rfl).2.1
    [⟨7, 0, 1, 0⟩, ⟨9, 0, 2, 0⟩] ⟨42, 1, 2, 0⟩ rfl).2.2 (by decide)

/-- C1, at the failing input: two events on a compiled handle, the last one with
id 3000000000, the id the parser gives to the line `-1294967296:/a/`.  The id
is stored through an `int*` and `scan_single` returns -1294967296, which is not
the id the last event carries. -/
theorem scan_single_last_id_converted :
    scan_single hs_h (some ⟨some 0, some 1⟩) (some ['a'])
      ⟨[⟨7, 0, 1, 0⟩, ⟨3000000000, 0, 2, 0⟩], 0⟩ = .ok (-1294967296) ∧
    scan_single hs_h (some ⟨some 0, some 1⟩) (some ['a'])
      ⟨[⟨7, 0, 1, 0⟩, ⟨3000000000, 0, 2, 0⟩], 0⟩ ≠ .ok 3000000000 ∧
    parseFile hs_h (some "-1294967296:/a/".toList) Vectors.empty =
      .ok ⟨["a".toList], [0], [3000000000]⟩ := by
  decide

/-- End offsets: when the events come in non-decreasing order of end offset, the value
`scan_single` returns is the id (through the `int` return type) of an event
whose end offset is the greatest of the whole sequence.  Nothing but the order
of delivery enters: with an event A ending at offset 3 followed by an event B
ending at offset 7, the scan returns the id of B, whatever the two ids are. -/
theorem scan_single_max_end_offset (H : HsHeader) (e : HyperscanEngine) (d : Str)
    (db : Nat) (run : ScanRun) (hready : e.db = some db)
    (hok : run.status = H.HS_SUCCESS) (hne : run.events ≠ [])
    (hord : run.events.Pairwise (fun a b => a.to_ ≤ b.to_)) :
    (∃ ev ∈ run.events, (∀ x ∈ run.events, x.to_ ≤ ev.to_) ∧
      scan_single H (some e) (some d) run = .ok (int_of_unsigned ev.id) ∧
      (ev.id < 2 ^ 31 → scan_single H (some e) (some d) run = .ok (ev.id : Int))) ∧
    (∀ idA idB : Nat, idB < 2 ^ 31 →
      scan_single H (some e) (some d) ⟨[⟨idA, 0, 3, 0⟩, ⟨idB, 0, 7, 0⟩], H.HS_SUCCESS⟩ =
        .ok (idB : Int)) := by
  constructor
  · rcases List.eq_nil_or_concat run.events with h | ⟨pre, last, h⟩
    · exact absurd h hne
    · rw [List.concat_eq_append] at h
      have hs : scan_single H (some e) (some d) run = .ok (int_of_unsigned last.id) := by
        rw [scan_single_ready H e d db run hready hok, h, hs_scan_onMatch_snoc]
      refine ⟨last, by simp [h], ?_, hs, fun hlt => ?_⟩
      · intro x hx
        rw [h] at hx hord
        rcases List.mem_append.mp hx with hx1 | hx1
        · exact (List.pairwise_append.mp hord).2.2 x hx1 last (by simp)
        · have : x = last := by simpa using hx1
          rw [this]
      · rw [hs, int_of_unsigned_small last.id hlt]
  · intro idA idB hB
    rw [scan_single_ready H e d db _ hready rfl]
    show Except.ok (hs_scan H _ onMatch ([⟨idA, 0, 3, 0⟩] ++ [⟨idB, 0, 7, 0⟩]) (-1)).2 = _
    rw [hs_scan_onMatch_snoc, int_of_unsigned_small idB hB]

/-- End offsets on two events: event A (id 1) ending at offset 3, then event B (id 2)
ending at offset 7, on a compiled handle: the scan returns 2. -/
theorem scan_single_max_end_offset_witness :
    scan_single hs_h (some ⟨some 1, some 2⟩) (some ['a'])
      ⟨[⟨1, 0, 3, 0⟩, ⟨2, 0, 7, 0⟩], hs_h.HS_SUCCESS⟩ = .ok 2 :=
  (scan_single_max_end_offset hs_h ⟨some 1, some 2⟩ ['a'] 1
    ⟨[⟨1, 0, 3, 0⟩, ⟨2, 0, 7, 0⟩], 0⟩ rfl rfl (by decide) (by decide)).2 1 2 (by decide)

/-- C5, at the failing input: event A (id 1) ending at offset 3, then event B
(id 2147483648) ending at offset 7, on a compiled handle.  The value returned
is -2147483648: it is the id of neither event, so not the id of an event with
the greatest end offset. -/
theorem scan_single_max_end_offset_converted :
    scan_single hs_h (some ⟨some 0, some 1⟩) (some ['a'])
      ⟨[⟨1, 0, 3, 0⟩, ⟨2147483648, 0, 7, 0⟩], 0⟩ = .ok (-2147483648) ∧
    (∀ ev ∈ [(⟨1, 0, 3, 0⟩ : MatchEvent), ⟨2147483648, 0, 7, 0⟩],
      scan_single hs_h (some ⟨some 0, some 1⟩) (some ['a'])
        ⟨[⟨1, 0, 3, 0⟩, ⟨2147483648, 0, 7, 0⟩], 0⟩ ≠ .ok (ev.id : Int)) := by
  decide

/-! ## `parseFlags` -/

theorem flagsUnion_cons (H : HsHeader) (c : Char) (cs : Str) :
    flagsUnion H (c :: cs) = flagBit H c ||| flagsUnion H cs := rfl

theorem parseFlagsLoop_accepted (H : HsHeader) (s : Str) (acc : Nat)
    (hs : ∀ c ∈ s, c ∈ acceptedFlagChars) :
    parseFlagsLoop H s acc = .ok (acc ||| flagsUnion H s) := by
  induction s generalizing acc with
  | nil => simp [parseFlagsLoop, flagsUnion]
  | cons c cs ih =>
    have hc : c ∈ acceptedFlagChars := hs c (by simp)
    have hcs : ∀ x ∈ cs, x ∈ acceptedFlagChars := fun x hx => hs x (by simp [hx])
    simp only [acceptedFlagChars, modifierChars, List.mem_cons, List.mem_singleton] at hc
    rcases hc with rfl | rfl | rfl | rfl | rfl | rfl | rfl | rfl | h
    all_goals first
      | (simp [parseFlagsLoop, flagsUnion_cons, flagBit, ih _ hcs, Nat.lor_assoc]; done)
      | simp at h

theorem parseFlags_accepted (H : HsHeader) (s : Str)
    (hs : ∀ c ∈ s, c ∈ acceptedFlagChars) : parseFlags H s = .ok (flagsUnion H s) := by
  rw [parseFlags, parseFlagsLoop_accepted H s 0 hs, Nat.zero_or]

theorem parseFlagsLoop_rejected (H : HsHeader) (pre : Str) (c : Char) (post : Str) (acc : Nat)
    (hpre : ∀ x ∈ pre, x ∈ acceptedFlagChars) (hc : c ∉ acceptedFlagChars) :
    parseFlagsLoop H (pre ++ c :: post) acc = .error (.unsupportedFlag c) := by
  induction pre generalizing acc with
  | nil =>
    simp only [acceptedFlagChars, modifierChars, List.mem_cons, List.mem_singleton,
      List.not_mem_nil, or_false, not_or] at hc
    obtain ⟨h0, h1, h2, h3, h4, h5, h6, h7⟩ := hc
    simp [parseFlagsLoop, h0, h1, h2, h3, h4, h5, h6, h7]
  | cons x xs ih =>
    have hx : x ∈ acceptedFlagChars := hpre x (by simp)
    have hxs : ∀ y ∈ xs, y ∈ acceptedFlagChars := fun y hy => hpre y (by simp [hy])
    simp only [acceptedFlagChars, modifierChars, List.mem_cons, List.mem_singleton] at hx
    rcases hx with rfl | rfl | rfl | rfl | rfl | rfl | rfl | rfl | h
    all_goals first
      | (simp [parseFlagsLoop, ih _ hxs]; done)
      | simp at h

theorem parseFlags_rejected (H : HsHeader) (pre : Str) (c : Char) (post : Str)
    (hpre : ∀ x ∈ pre, x ∈ acceptedFlagChars) (hc : c ∉ acceptedFlagChars) :
    parseFlags H (pre ++ c :: post) = .error (.unsupportedFlag c) :=
  parseFlagsLoop_rejected H pre c post 0 hpre hc

/-- A string is made of accepted flag characters, or splits at its first
character that is not one. -/
theorem first_unaccepted (s : Str) :
    (∀ c ∈ s, c ∈ acceptedFlagChars) ∨
    ∃ pre c post, s = pre ++ c :: post ∧ (∀ x ∈ pre, x ∈ acceptedFlagChars) ∧
      c ∉ acceptedFlagChars := by
  induction s with
  | nil => left; simp
  | cons a as ih =>
    by_cases ha : a ∈ acceptedFlagChars
    · rcases ih with h | ⟨pre, c, post, h1, h2, h3⟩
      · left
        intro x hx
        rcases List.mem_cons.mp hx with rfl | hx
        · exact ha
        · exact h x hx
      · right
        refine ⟨a :: pre, c, post, by simp [h1], ?_, h3⟩
        intro x hx
        rcases List.mem_cons.mp hx with rfl | hx
        · exact ha
        · exact h2 x hx
    · right
      exact ⟨[], a, as, rfl, by simp, ha⟩

theorem parseFlags_error_iff (H : HsHeader) (s : Str) :
    (∃ f, parseFlags H s = .error f) ↔ ∃ c ∈ s, c ∉ acceptedFlagChars := by
  constructor
  · rintro ⟨f, hf⟩
    rcases first_unaccepted s with h | ⟨pre, c, post, h1, _, h3⟩
    · rw [parseFlags_accepted H s h] at hf; cases hf
    · exact ⟨c, by simp [h1], h3⟩
  · rintro ⟨c, hc, hbad⟩
    rcases first_unaccepted s with h | ⟨pre, c1, post, h1, h2, h3⟩
    · exact absurd (h c hc) hbad
    · exact ⟨_, by rw [h1]; exact parseFlags_rejected H pre c1 post h2 h3⟩

theorem flagsUnion_testBit (H : HsHeader) (s : Str) (n : Nat) :
    (flagsUnion H s).testBit n = true ↔ ∃ c ∈ s, (flagBit H c).testBit n = true := by
  induction s with
  | nil => simp [flagsUnion]
  | cons a as ih =>
    rw [flagsUnion_cons, Nat.testBit_lor, Bool.or_eq_true, ih]
    simp

theorem flagsUnion_congr (H : HsHeader) (s t : Str) (h : ∀ c, c ∈ s ↔ c ∈ t) :
    flagsUnion H s = flagsUnion H t := by
  apply Nat.eq_of_testBit_eq
  intro n
  rw [Bool.eq_iff_iff, flagsUnion_testBit, flagsUnion_testBit]
  constructor
  · rintro ⟨c, hc, hb⟩; exact ⟨c, (h c).mp hc, hb⟩
  · rintro ⟨c, hc, hb⟩; exact ⟨c, (h c).mpr hc, hb⟩

/-- C4: on a string made of the seven modifier characters and carriage
return, `parseFlags` succeeds with the bitwise OR of the bits of its characters
under the table i, m, s, H, V, 8, W (carriage return giving no bit); a bit of
the result is set exactly when some character of the string sets it, so two
such strings with the same set of characters give the same result, and the
empty string gives 0. -/
theorem parseFlags_is_union (H : HsHeader) (s : Str)
    (hs : ∀ c ∈ s, c ∈ acceptedFlagChars) :
    parseFlags H s = .ok (flagsUnion H s) ∧
    (flagBit H 'i' = H.HS_FLAG_CASELESS ∧ flagBit H 'm' = H.HS_FLAG_MULTILINE ∧
      flagBit H 's' = H.HS_FLAG_DOTALL ∧ flagBit H 'H' = H.HS_FLAG_SINGLEMATCH ∧
      flagBit H 'V' = H.HS_FLAG_ALLOWEMPTY ∧ flagBit H '8' = H.HS_FLAG_UTF8 ∧
      flagBit H 'W' = H.HS_FLAG_UCP ∧ flagBit H '\r' = 0) ∧
    (∀ n, (flagsUnion H s).testBit n = true ↔ ∃ c ∈ s, (flagBit H c).testBit n = true) ∧
    (∀ t : Str, (∀ c ∈ t, c ∈ acceptedFlagChars) → (∀ c, c ∈ s ↔ c ∈ t) →
      parseFlags H t = parseFlags H s) ∧
    parseFlags H [] = .ok 0 := by
  refine ⟨parseFlags_accepted H s hs, ?_, flagsUnion_testBit H s, ?_, rfl⟩
  · simp [flagBit]
  · intro t ht hst
    rw [parseFlags_accepted H s hs, parseFlags_accepted H t ht, flagsUnion_congr H s t hst]

/-- Witness of C4: the string `s`, `i`, carriage return, `i`, with the values
the Hyperscan headers give to the bits. -/
theorem parseFlags_is_union_witness :
    parseFlags hs_h ['s', 'i', '\r', 'i'] = .ok 3 :=
  (parseFlags_is_union hs_h ['s', 'i', '\r', 'i'] (by decide)).1


/-! ## `std::string` searches and slices -/

theorem find_first_of_none (s : Str) (c : Char) : find_first_of s c = none ↔ c ∉ s := by
  induction s with
  | nil => simp [find_first_of]
  | cons x xs ih =>
    by_cases h : x = c
    · simp [find_first_of, h]
    · simp [find_first_of, h, ih, Ne.symm h]

theorem find_first_of_append (p r : Str) (c : Char) (h : c ∉ p) :
    find_first_of (p ++ c :: r) c = some p.length := by
  induction p with
  | nil => simp [find_first_of]
  | cons x xs ih =>
    have hx : x ≠ c := fun e => h (by simp [e])
    have hxs : c ∉ xs := fun e => h (by simp [e])
    simp [find_first_of, hx, ih hxs]

theorem find_first_of_some (s : Str) (c : Char) (k : Nat) (h : find_first_of s c = some k) :
    s = s.take k ++ c :: s.drop (k + 1) ∧ c ∉ s.take k := by
  induction s generalizing k with
  | nil => simp [find_first_of] at h
  | cons x xs ih =>
    by_cases hx : x = c
    · simp [find_first_of, hx] at h
      subst h
      simp [hx]
    · simp only [find_first_of, hx, if_false, Option.map_eq_some'] at h
      obtain ⟨j, hj, rfl⟩ := h
      obtain ⟨h1, h2⟩ := ih j hj
      refine ⟨?_, ?_⟩
      · simp only [List.take_succ_cons, List.drop_succ_cons, List.cons_append]
        rw [← h1]
      · simp only [List.take_succ_cons, List.mem_cons, not_or]
        exact ⟨Ne.symm hx, h2⟩

theorem find_last_of_none (s : Str) (c : Char) : find_last_of s c = none ↔ c ∉ s := by
  induction s with
  | nil => simp [find_last_of]
  | cons x xs ih =>
    cases hr : find_last_of xs c with
    | none =>
      have hxs : c ∉ xs := ih.mp hr
      by_cases h : x = c
      · simp [find_last_of, hr, h]
      · simp [find_last_of, hr, h, hxs, Ne.symm h]
    | some k =>
      have hxs : ¬ c ∉ xs := fun e => by rw [ih.mpr e] at hr; cases hr
      simp only [not_not] at hxs
      simp [find_last_of, hr, hxs]

theorem find_last_of_append (p r : Str) (c : Char) (h : c ∉ r) :
    find_last_of (p ++ c :: r) c = some p.length := by
  induction p with
  | nil => simp [find_last_of, (find_last_of_none r c).mpr h]
  | cons x xs ih => simp [find_last_of, ih]

theorem find_last_of_some (s : Str) (c : Char) (k : Nat) (h : find_last_of s c = some k) :
    s = s.take k ++ c :: s.drop (k + 1) ∧ c ∉ s.drop (k + 1) := by
  induction s generalizing k with
  | nil => simp [find_last_of] at h
  | cons x xs ih =>
    cases hr : find_last_of xs c with
    | none =>
      have hxs : c ∉ xs := (find_last_of_none xs c).mp hr
      by_cases hx : x = c
      · simp [find_last_of, hr, hx] at h
        subst h
        simp [hx] at hxs ⊢
        exact hxs
      · simp [find_last_of, hr, hx] at h
    | some j =>
      simp [find_last_of, hr] at h
      subst h
      obtain ⟨h1, h2⟩ := ih j hr
      refine ⟨?_, ?_⟩
      · simp only [List.take_succ_cons, List.drop_succ_cons, List.cons_append]
        rw [← h1]
      · simpa using h2

theorem find_last_of_lt (s : Str) (c : Char) (k : Nat) (h : find_last_of s c = some k) :
    k < s.length := by
  have h1 := (find_last_of_some s c k h).1
  have h2 := congrArg List.length h1
  simp only [List.length_append, List.length_cons, List.length_take, List.length_drop] at h2
  omega

theorem substr_ok (s : Str) (pos count : Nat) (h : pos ≤ s.length) :
    substr s pos count = .ok ((s.drop pos).take count) := by
  simp [substr, Nat.not_lt.mpr h]

theorem substr_from_ok (s : Str) (pos : Nat) (h : pos ≤ s.length) :
    substr_from s pos = .ok (s.drop pos) := by
  simp [substr_from, Nat.not_lt.mpr h]

/-! ## `getline` -/

theorem getlines_ne_nil (s : Str) : getlines s ≠ [] := by
  cases s with
  | nil => simp [getlines]
  | cons c cs =>
    by_cases h : c = '\n'
    · simp [getlines, h]
    · cases hr : getlines cs <;> simp [getlines, h, hr]

theorem getlines_no_newline (l : Str) (h : '\n' ∉ l) : getlines l = [l] := by
  induction l with
  | nil => rfl
  | cons c cs ih =>
    have hc : c ≠ '\n' := fun e => h (by simp [e])
    have hcs : '\n' ∉ cs := fun e => h (by simp [e])
    simp [getlines, hc, ih hcs]

theorem getlines_append (l rest : Str) (h : '\n' ∉ l) :
    getlines (l ++ '\n' :: rest) = l :: getlines rest := by
  induction l with
  | nil => simp [getlines]
  | cons c cs ih =>
    have hc : c ≠ '\n' := fun e => h (by simp [e])
    have hcs : '\n' ∉ cs := fun e => h (by simp [e])
    simp [getlines, hc, ih hcs]

theorem joinLines_cons (l : Str) (ls : List Str) (h : ls ≠ []) :
    joinLines (l :: ls) = l ++ '\n' :: joinLines ls := by
  cases ls with
  | nil => exact absurd rfl h
  | cons a as => rfl

theorem getlines_joinLines (ls : List Str) (hne : ls ≠ []) (h : ∀ l ∈ ls, '\n' ∉ l) :
    getlines (joinLines ls) = ls := by
  induction ls with
  | nil => exact absurd rfl hne
  | cons l rest ih =>
    have hl : '\n' ∉ l := h l (by simp)
    cases rest with
    | nil => exact getlines_no_newline l hl
    | cons a as =>
      rw [joinLines_cons l (a :: as) (by simp), getlines_append l _ hl,
        ih (by simp) (fun x hx => h x (by simp [hx]))]

theorem getlines_mem_no_newline (s : Str) : ∀ l ∈ getlines s, '\n' ∉ l := by
  induction s with
  | nil => simp [getlines]
  | cons c cs ih =>
    by_cases hc : c = '\n'
    · intro l hl
      simp only [getlines, hc, if_true, List.mem_cons] at hl
      rcases hl with rfl | hl
      · simp
      · exact ih l hl
    · cases hr : getlines cs with
      | nil => exact absurd hr (getlines_ne_nil cs)
      | cons a as =>
        rw [hr] at ih
        intro l hl
        simp only [getlines, hc, if_false, hr, List.mem_cons] at hl
        rcases hl with rfl | hl
        · have ha := ih a (by simp)
          simp only [List.mem_cons, not_or]
          exact ⟨Ne.symm hc, ha⟩
        · exact ih l (by simp [hl])

/-- Every pattern source is its lines joined by newlines. -/
theorem joinLines_getlines (s : Str) : joinLines (getlines s) = s := by
  induction s with
  | nil => rfl
  | cons c cs ih =>
    by_cases hc : c = '\n'
    · simp only [getlines, hc, if_true]
      rw [joinLines_cons [] _ (getlines_ne_nil cs), ih]
      rfl
    · cases hr : getlines cs with
      | nil => exact absurd hr (getlines_ne_nil cs)
      | cons a as =>
        rw [hr] at ih
        simp only [getlines, hc, if_false, hr]
        cases as with
        | nil =>
          simp only [joinLines] at ih ⊢
          rw [ih]
        | cons b bs =>
          rw [joinLines_cons _ _ (by simp)] at ih ⊢
          rw [← ih]
          rfl

/-! ## `std::stoi` -/

theorem isdigit_toNat (c : Char) : isdigit c = true ↔ 48 ≤ c.toNat ∧ c.toNat ≤ 57 := by
  simp only [isdigit, Bool.and_eq_true, decide_eq_true_eq, Char.le_def]
  rfl

theorem isdigit_not_special (c : Char) (h : isdigit c = true) :
    isspace c = false ∧ c ≠ '-' ∧ c ≠ '+' ∧ c ≠ ':' ∧ c ≠ '\n' ∧ c ≠ '#' ∧ c ≠ '\x00' := by
  have h1 := (isdigit_toNat c).mp h
  refine ⟨?_, ?_, ?_, ?_, ?_, ?_, ?_⟩
  · simp only [isspace, Bool.or_eq_false_iff, decide_eq_false_iff_not]
    refine ⟨⟨⟨⟨⟨?_, ?_⟩, ?_⟩, ?_⟩, ?_⟩, ?_⟩ <;> (rintro rfl; revert h1; decide)
  all_goals (rintro rfl; revert h1; decide)

theorem takeWhile_all (p : Char → Bool) (s : Str) (h : ∀ c ∈ s, p c = true) :
    s.takeWhile p = s := by
  induction s with
  | nil => rfl
  | cons a as ih =>
    simp [List.takeWhile, h a (by simp), ih (fun c hc => h c (by simp [hc]))]

theorem c_str_digits (ds : Str) (h : ∀ c ∈ ds, isdigit c = true) : c_str ds = ds := by
  apply takeWhile_all
  intro c hc
  simpa using (isdigit_not_special c (h c hc)).2.2.2.2.2.2

/-- On a non-empty run of decimal digits whose value fits an `int`, `stoi`
returns that value. -/
theorem stoi_digits (ds : Str) (hne : ds ≠ []) (h : ∀ c ∈ ds, isdigit c = true)
    (hv : digitsValue ds ≤ 2 ^ 31 - 1) : stoi ds = .ok (digitsValue ds : Int) := by
  cases ds with
  | nil => exact absurd rfl hne
  | cons a as =>
    have ha := isdigit_not_special a (h a (by simp))
    have h1 : (a :: as).dropWhile isspace = a :: as := by simp [List.dropWhile, ha.1]
    have h2 : (a :: as).takeWhile isdigit = a :: as := takeWhile_all isdigit _ h
    have hv2 : ((digitsValue (a :: as) : Nat) : Int) ≤ 2 ^ 31 - 1 := by
      have : ((digitsValue (a :: as) : Nat) : Int) ≤ ((2 ^ 31 - 1 : Nat) : Int) :=
        Int.ofNat_le.mpr hv
      simpa using this
    have hv3 : (0 : Int) ≤ ((digitsValue (a :: as) : Nat) : Int) := Int.ofNat_nonneg _
    simp only [stoi, h1, List.head?_cons, Option.some.injEq, ha.2.1, ha.2.2.1, or_self,
      if_false, h2, INT_MIN, INT_MAX]
    rw [if_neg (by simp), if_neg (by omega)]

theorem unsigned_of_int_nat (n : Nat) (h : n ≤ 2 ^ 31 - 1) : unsigned_of_int (n : Int) = n := by
  unfold unsigned_of_int
  omega

/-! ### Decimal numerals -/

theorem digitChar_isdigit (m : Nat) (h : m < 10) :
    isdigit (Nat.digitChar m) = true ∧ (Nat.digitChar m).toNat - '0'.toNat = m := by
  interval_cases m <;> exact ⟨by decide, by decide⟩

theorem digitsValue_append (p : Str) (c : Char) :
    digitsValue (p ++ [c]) = digitsValue p * 10 + (c.toNat - '0'.toNat) := by
  simp [digitsValue, List.foldl_append]

theorem toDigitsCore_spec (fuel n : Nat) (ds : Str) (h : n < fuel) :
    ∃ p : Str, Nat.toDigitsCore 10 fuel n ds = p ++ ds ∧ p ≠ [] ∧
      (∀ c ∈ p, isdigit c = true) ∧ digitsValue p = n := by
  induction fuel generalizing n ds with
  | zero => omega
  | succ fuel ih =>
    have hd := digitChar_isdigit (n % 10) (Nat.mod_lt n (by decide))
    by_cases hq : n / 10 = 0
    · refine ⟨[Nat.digitChar (n % 10)], ?_, by simp, ?_, ?_⟩
      · simp [Nat.toDigitsCore, hq]
      · intro c hc
        simp only [List.mem_singleton] at hc
        rw [hc]; exact hd.1
      · have : digitsValue [Nat.digitChar (n % 10)] =
            (Nat.digitChar (n % 10)).toNat - '0'.toNat := by simp [digitsValue]
        rw [this, hd.2]
        omega
    · have hlt : n / 10 < fuel := by omega
      obtain ⟨p, hp1, hp2, hp3, hp4⟩ := ih (n / 10) (Nat.digitChar (n % 10) :: ds) hlt
      refine ⟨p ++ [Nat.digitChar (n % 10)], ?_, by simp, ?_, ?_⟩
      · simp [Nat.toDigitsCore, hq, hp1]
      · intro c hc
        rcases List.mem_append.mp hc with hc | hc
        · exact hp3 c hc
        · simp only [List.mem_singleton] at hc
          rw [hc]; exact hd.1
      · rw [digitsValue_append, hp4, hd.2]
        omega

/-- The decimal numeral of `n` is a non-empty run of digits with value `n`. -/
theorem toDigits_spec (n : Nat) :
    Nat.toDigits 10 n ≠ [] ∧ (∀ c ∈ Nat.toDigits 10 n, isdigit c = true) ∧
      digitsValue (Nat.toDigits 10 n) = n := by
  obtain ⟨p, hp1, hp2, hp3, hp4⟩ := toDigitsCore_spec (n + 1) n [] (Nat.lt_succ_self n)
  have : Nat.toDigits 10 n = p := by simpa [Nat.toDigits] using hp1
  rw [this]
  exact ⟨hp2, hp3, hp4⟩

/-! ## The loop body of `parseFile` -/

/-- The loop body on a line cut at its first colon: the id text goes through
`stoi`, the rest is cut at its last slash. -/
theorem parseEntry_split (H : HsHeader) (idStr expr : Str) (i : Nat) (h : ':' ∉ idStr) :
    parseEntry H (idStr ++ ':' :: expr) i =
      match stoi (c_str idStr) with
      | .error e => .error e
      | .ok r =>
        match find_last_of expr '/' with
        | none => .error .noTrailingSlash
        | some flagsStart =>
          match parseFlags H (expr.drop (flagsStart + 1)) with
          | .error e => .error e
          | .ok flag =>
            .ok ((expr.drop 1).take (size_sub flagsStart 1), flag, unsigned_of_int r) := by
  have h1 : substr (idStr ++ ':' :: expr) 0 idStr.length = .ok idStr := by
    rw [substr_ok _ _ _ (Nat.zero_le _)]; simp
  have h2 : substr_from (idStr ++ ':' :: expr) (idStr.length + 1) = .ok expr := by
    rw [substr_from_ok _ _ (by simp)]; simp
  simp only [parseEntry, find_first_of_append idStr expr ':' h, h1, h2]
  cases stoi (c_str idStr) with
  | error e => rfl
  | ok r =>
    cases hf : find_last_of expr '/' with
    | none => rfl
    | some flagsStart =>
      have hlt := find_last_of_lt expr '/' flagsStart hf
      have h3 : substr expr 1 (size_sub flagsStart 1) =
          .ok ((expr.drop 1).take (size_sub flagsStart 1)) := substr_ok _ _ _ (by omega)
      have h4 : substr expr (flagsStart + 1) (expr.length - flagsStart) =
          .ok (expr.drop (flagsStart + 1)) := by
        rw [substr_ok _ _ _ (by omega)]
        congr 1
        apply List.take_of_length_le
        simp only [List.length_drop]
        omega
      simp only [h3, h4]

/-- A line without a colon is a `Could not parse line` failure. -/
theorem parseEntry_no_colon (H : HsHeader) (line : Str) (i : Nat) (h : ':' ∉ line) :
    parseEntry H line i = .error (.couldNotParseLine i) := by
  simp [parseEntry, (find_first_of_none line ':').mpr h]

/-- The line `<digits>:/<e>/<f>`. -/
theorem parseEntry_wellformed (H : HsHeader) (ds e f : Str) (i : Nat)
    (hne : ds ≠ []) (hds : ∀ c ∈ ds, isdigit c = true)
    (hv : digitsValue ds ≤ 2 ^ 31 - 1) (hf : ∀ c ∈ f, c ∈ acceptedFlagChars) :
    parseEntry H (ds ++ ':' :: '/' :: (e ++ '/' :: f)) i =
      .ok (e, flagsUnion H f, digitsValue ds) := by
  have hcolon : ':' ∉ ds := fun hc => (isdigit_not_special _ (hds _ hc)).2.2.2.1 rfl
  have hslash : '/' ∉ f := by
    intro hc
    have := hf _ hc
    revert this
    decide
  have hlast : find_last_of ('/' :: (e ++ '/' :: f)) '/' = some (e.length + 1) := by
    have := find_last_of_append ('/' :: e) f '/' hslash
    simpa using this
  rw [parseEntry_split H ds _ i hcolon, c_str_digits ds hds, stoi_digits ds hne hds hv]
  simp only [hlast]
  have hdrop : ('/' :: (e ++ '/' :: f)).drop (e.length + 1 + 1) = f := by
    simp
  have hsub : size_sub (e.length + 1) 1 = e.length := by simp [size_sub]
  rw [hdrop, parseFlags_accepted H f hf, hsub, unsigned_of_int_nat _ hv]
  simp

theorem skipped_digits (ds rest : Str) (hne : ds ≠ []) (hds : ∀ c ∈ ds, isdigit c = true) :
    skipped (ds ++ rest) = false := by
  cases ds with
  | nil => exact absurd rfl hne
  | cons a as =>
    have ha := (isdigit_not_special a (hds a (by simp))).2.2.2.2.2.1
    simp [skipped, ha]

theorem parseLoop_nil_line (H : HsHeader) (i : Nat) (v : Vectors) :
    parseLoop H [[]] i v = .ok v := rfl

/-- A source is parsed as the loop runs over its lines, numbered from 1. -/
theorem parseFile_joinLines (H : HsHeader) (ls : List Str) (v : Vectors)
    (h : ∀ l ∈ ls, '\n' ∉ l) :
    parseFile H (some (joinLines ls)) v = parseLoop H ls 1 v := by
  cases ls with
  | nil => rfl
  | cons a as => simp only [parseFile]; rw [getlines_joinLines (a :: as) (by simp) h]

theorem modifier_accepted (f : Str) (hf : ∀ c ∈ f, c ∈ modifierChars) :
    ∀ c ∈ f, c ∈ acceptedFlagChars :=
  fun c hc => List.mem_cons_of_mem _ (hf c hc)

/-- C2: for every `n ≤ 2^31 - 1` written in decimal, every expression body `e`
without a newline (slashes and colons allowed, empty allowed) and every flags
string `f` of modifier characters, parsing the one-line source
`<n>:/<e>/<f>\n` succeeds with exactly one entry: pattern `e`, flags the union
of the bits of the characters of `f`, id `n`.  The same holds for any non-empty
digit string with that value (leading zeros).  In particular
`10001:/foo.bar/i\n` gives id 10001, pattern `foo.bar`, flags caseless. -/
theorem parseFile_one_line (H : HsHeader) (n : Nat) (e f : Str)
    (hn : n ≤ 2 ^ 31 - 1) (he : '\n' ∉ e) (hf : ∀ c ∈ f, c ∈ modifierChars) :
    parseFile H (some (Nat.toDigits 10 n ++ ':' :: '/' :: (e ++ '/' :: (f ++ ['\n']))))
        Vectors.empty = .ok ⟨[e], [flagsUnion H f], [n]⟩ ∧
    (∀ ds : Str, ds ≠ [] → (∀ c ∈ ds, isdigit c = true) → digitsValue ds = n →
      parseFile H (some (ds ++ ':' :: '/' :: (e ++ '/' :: (f ++ ['\n']))))
        Vectors.empty = .ok ⟨[e], [flagsUnion H f], [n]⟩) ∧
    parseFile H (some "10001:/foo.bar/i\n".toList) Vectors.empty =
      .ok ⟨["foo.bar".toList], [H.HS_FLAG_CASELESS], [10001]⟩ := by
  have hfa := modifier_accepted f hf
  have hfn : '\n' ∉ f := by
    intro hc
    have := hf _ hc
    revert this
    decide
  have key : ∀ ds : Str, ds ≠ [] → (∀ c ∈ ds, isdigit c = true) → digitsValue ds = n →
      parseFile H (some (ds ++ ':' :: '/' :: (e ++ '/' :: (f ++ ['\n']))))
        Vectors.empty = .ok ⟨[e], [flagsUnion H f], [n]⟩ := by
    intro ds hne hds hval
    have hline : '\n' ∉ ds ++ ':' :: '/' :: (e ++ '/' :: f) := by
      intro hc
      simp only [List.mem_append, List.mem_cons] at hc
      rcases hc with hc | hc | hc | hc | hc | hc
      · exact (isdigit_not_special _ (hds _ hc)).2.2.2.2.1 rfl
      · revert hc; decide
      · revert hc; decide
      · exact he hc
      · revert hc; decide
      · exact hfn hc
    have hsrc : ds ++ ':' :: '/' :: (e ++ '/' :: (f ++ ['\n'])) =
        (ds ++ ':' :: '/' :: (e ++ '/' :: f)) ++ '\n' :: [] := by simp
    have hentry := parseEntry_wellformed H ds e f 1 hne hds (by rw [hval]; exact hn) hfa
    have hskip := skipped_digits ds (':' :: '/' :: (e ++ '/' :: f)) hne hds
    simp only [parseFile]
    rw [hsrc, getlines_append _ _ hline]
    simp only [getlines, parseLoop, parseLine, hskip, hentry, hval, Vectors.empty]
    simp [skipped]
  refine ⟨?_, key, ?_⟩
  · obtain ⟨h1, h2, h3⟩ := toDigits_spec n
    exact key _ h1 h2 h3
  · simp [parseFile, getlines, parseLoop, parseLine, skipped, parseEntry, find_first_of,
      find_last_of, substr, substr_from, c_str, stoi, isspace, isdigit, digitsValue, size_sub,
      parseFlags, parseFlagsLoop, unsigned_of_int, INT_MIN, INT_MAX, Vectors.empty, npos]

/-- Witness of C2: id 10001, body `foo.*bar`, flags `is`. -/
theorem parseFile_one_line_witness :
    parseFile hs_h (some "10001:/foo.*bar/is\n".toList) Vectors.empty =
      .ok ⟨["foo.*bar".toList], [3], [10001]⟩ :=
  (parseFile_one_line hs_h 10001 "foo.*bar".toList ['i', 's'] (by decide) (by decide)
    (by decide)).1

/-! ## The loop of `parseFile` -/

/-- The loop counter reaches the loop body only through the message of the
missing-colon failure. -/
theorem parseEntry_counter (H : HsHeader) (line : Str) (i j : Nat) :
    parseEntry H line i = parseEntry H line j ∨
    (parseEntry H line i = .error (.couldNotParseLine i) ∧
      parseEntry H line j = .error (.couldNotParseLine j)) := by
  cases h : find_first_of line ':' with
  | none => right; simp [parseEntry, h]
  | some k => left; simp only [parseEntry, h]

theorem parseEntry_ok_counter (H : HsHeader) (line : Str) (i : Nat) (e : Str × Nat × Nat)
    (h : parseEntry H line i = .ok e) (j : Nat) : parseEntry H line j = .ok e := by
  rcases parseEntry_counter H line i j with h1 | ⟨h1, _⟩
  · rw [← h1]; exact h
  · rw [h1] at h; cases h

theorem parseLine_skipped (H : HsHeader) (line : Str) (i : Nat) (v : Vectors)
    (h : skipped line = true) : parseLine H line i v = .ok v := by
  simp [parseLine, h]

theorem parseLine_entry (H : HsHeader) (line : Str) (i : Nat) (v : Vectors)
    (h : skipped line = false) :
    parseLine H line i v =
      match parseEntry H line i with
      | .error e => .error e
      | .ok (pcre, flag, id) => .ok ⟨v.patterns ++ [pcre], v.flags ++ [flag], v.ids ++ [id]⟩ := by
  simp [parseLine, h]

theorem parseLine_kind (H : HsHeader) (line : Str) (i j : Nat) (v : Vectors) :
    outcomeKind (parseLine H line i v) = outcomeKind (parseLine H line j v) := by
  cases hs : skipped line with
  | true => rw [parseLine_skipped H line i v hs, parseLine_skipped H line j v hs]
  | false =>
    rw [parseLine_entry H line i v hs, parseLine_entry H line j v hs]
    rcases parseEntry_counter H line i j with h | ⟨h1, h2⟩
    · rw [h]
    · rw [h1, h2]; rfl

theorem parseLine_ok_counter (H : HsHeader) (line : Str) (i j : Nat) (v v1 : Vectors)
    (h : parseLine H line i v = .ok v1) : parseLine H line j v = .ok v1 := by
  have hk := parseLine_kind H line i j v
  rw [h] at hk
  cases hj : parseLine H line j v with
  | error f => rw [hj] at hk; cases hk
  | ok v2 =>
    rw [hj] at hk
    simp only [outcomeKind, Except.ok.injEq] at hk
    rw [hk]

/-- The outcome of the loop, line numbers apart, does not depend on the value
the counter starts from. -/
theorem parseLoop_kind (H : HsHeader) (lines : List Str) (i j : Nat) (v : Vectors) :
    outcomeKind (parseLoop H lines i v) = outcomeKind (parseLoop H lines j v) := by
  induction lines generalizing i j v with
  | nil => rfl
  | cons l rest ih =>
    cases hi : parseLine H l i v with
    | ok v1 =>
      have hj := parseLine_ok_counter H l i j v v1 hi
      simp only [parseLoop, hi, hj]
      exact ih _ _ v1
    | error f =>
      have hk := parseLine_kind H l i j v
      rw [hi] at hk
      cases hj : parseLine H l j v with
      | ok v2 => rw [hj] at hk; cases hk
      | error g =>
        rw [hj] at hk
        simp only [parseLoop, hi, hj]
        exact hk

theorem parseLoop_append (H : HsHeader) (a b : List Str) (i : Nat) (v : Vectors)
    (hi : i < UINT_RANGE) :
    parseLoop H (a ++ b) i v =
      match parseLoop H a i v with
      | .error e => .error e
      | .ok v1 => parseLoop H b ((i + a.length) % UINT_RANGE) v1 := by
  induction a generalizing i v with
  | nil => simp [parseLoop, Nat.mod_eq_of_lt hi]
  | cons l rest ih =>
    cases hl : parseLine H l i v with
    | error f => simp [parseLoop, hl]
    | ok v1 =>
      have hlt : (i + 1) % UINT_RANGE < UINT_RANGE := Nat.mod_lt _ (by decide)
      have e1 : parseLoop H (l :: (rest ++ b)) i v =
          parseLoop H (rest ++ b) ((i + 1) % UINT_RANGE) v1 := by simp only [parseLoop, hl]
      have e2 : parseLoop H (l :: rest) i v =
          parseLoop H rest ((i + 1) % UINT_RANGE) v1 := by simp only [parseLoop, hl]
      have e3 : ((i + 1) % UINT_RANGE + rest.length) % UINT_RANGE =
          (i + (rest.length + 1)) % UINT_RANGE := by
        rw [Nat.mod_add_mod]; congr 1; omega
      rw [List.cons_append, e1, e2, ih _ v1 hlt, List.length_cons, e3]

/-- A line of a pattern source is valid when the loop body accepts it. -/
theorem parseLoop_valid (H : HsHeader) (pre : List Str) (i : Nat) (v : Vectors)
    (hpre : ∀ x ∈ pre, skipped x = true ∨ ∃ e, parseEntry H x 0 = .ok e) :
    ∃ v1, parseLoop H pre i v = .ok v1 := by
  induction pre generalizing i v with
  | nil => exact ⟨v, rfl⟩
  | cons l rest ih =>
    have hrest : ∀ x ∈ rest, skipped x = true ∨ ∃ e, parseEntry H x 0 = .ok e :=
      fun x hx => hpre x (by simp [hx])
    rcases hpre l (by simp) with hs | ⟨e, he⟩
    · simp only [parseLoop, parseLine_skipped H l i v hs]
      exact ih _ v hrest
    · cases hs : skipped l with
      | true =>
        simp only [parseLoop, parseLine_skipped H l i v hs]
        exact ih _ v hrest
      | false =>
        have he2 := parseEntry_ok_counter H l 0 e he i
        simp only [parseLoop, parseLine_entry H l i v hs, he2]
        exact ih _ _ hrest

/-- After skipped or valid lines, a line on which the loop body fails makes the
loop fail with that failure. -/
theorem parseLoop_fail_at (H : HsHeader) (pre : List Str) (line : Str) (post : List Str)
    (i : Nat) (v : Vectors) (f : Failure) (hi : i < UINT_RANGE)
    (hpre : ∀ x ∈ pre, skipped x = true ∨ ∃ e, parseEntry H x 0 = .ok e)
    (hskip : skipped line = false)
    (hf : parseEntry H line ((i + pre.length) % UINT_RANGE) = .error f) :
    parseLoop H (pre ++ line :: post) i v = .error f := by
  obtain ⟨v1, hv1⟩ := parseLoop_valid H pre i v hpre
  rw [parseLoop_append H pre (line :: post) i v hi, hv1]
  simp only [parseLoop, parseLine_entry H line _ v1 hskip, hf]

/-- A line that is not skipped and on which the loop body fails, anywhere, makes
the loop fail. -/
theorem parseLoop_error_of_mem (H : HsHeader) (lines : List Str) (line : Str)
    (hmem : line ∈ lines) (hskip : skipped line = false)
    (hf : ∀ j, ∃ f, parseEntry H line j = .error f) (i : Nat) (v : Vectors) :
    ∃ f, parseLoop H lines i v = .error f := by
  induction lines generalizing i v with
  | nil => simp at hmem
  | cons l rest ih =>
    cases hl : parseLine H l i v with
    | error f => exact ⟨f, by simp [parseLoop, hl]⟩
    | ok v1 =>
      rcases List.mem_cons.mp hmem with rfl | hm
      · obtain ⟨f, hf1⟩ := hf i
        rw [parseLine_entry H line i v hskip, hf1] at hl
        cases hl
      · obtain ⟨f, hf1⟩ := ih hm ((i + 1) % UINT_RANGE) v1
        exact ⟨f, by simp [parseLoop, hl, hf1]⟩

/-- The vectors the loop returns are the vectors it started from followed by
the entries of the lines that are not skipped, in the order of the lines. -/
theorem parseLoop_entries (H : HsHeader) (lines : List Str) (i : Nat) (v v1 : Vectors)
    (h : parseLoop H lines i v = .ok v1) :
    ∃ entries : List (Str × Nat × Nat),
      v1.patterns = v.patterns ++ entries.map (fun e => e.1) ∧
      v1.flags = v.flags ++ entries.map (fun e => e.2.1) ∧
      v1.ids = v.ids ++ entries.map (fun e => e.2.2) ∧
      List.Forall₂ (fun l e => ∀ j, parseEntry H l j = .ok e)
        (lines.filter (fun l => !skipped l)) entries := by
  induction lines generalizing i v with
  | nil =>
    simp only [parseLoop, Except.ok.injEq] at h
    subst h
    exact ⟨[], by simp, by simp, by simp, List.Forall₂.nil⟩
  | cons l rest ih =>
    cases hs : skipped l with
    | true =>
      simp only [parseLoop, parseLine_skipped H l i v hs] at h
      obtain ⟨entries, h1, h2, h3, h4⟩ := ih _ v h
      exact ⟨entries, h1, h2, h3, by simpa [List.filter, hs] using h4⟩
    | false =>
      rw [parseLoop, parseLine_entry H l i v hs] at h
      cases he : parseEntry H l i with
      | error f => rw [he] at h; cases h
      | ok e =>
        obtain ⟨pcre, flag, id⟩ := e
        rw [he] at h
        obtain ⟨entries, h1, h2, h3, h4⟩ := ih _ _ h
        refine ⟨(pcre, flag, id) :: entries, by simp [h1], by simp [h2], by simp [h3], ?_⟩
        simp only [List.filter, hs, Bool.not_false]
        exact List.Forall₂.cons (parseEntry_ok_counter H l i _ he) h4

theorem forall₂_getElem? {α β : Type} (R : α → β → Prop) (l1 : List α) (l2 : List β)
    (h : List.Forall₂ R l1 l2) (k : Nat) (a : α) (hk : l1[k]? = some a) :
    ∃ b, l2[k]? = some b ∧ R a b := by
  induction h generalizing k with
  | nil => simp at hk
  | cons hab _ ih =>
    cases k with
    | zero =>
      simp only [List.getElem?_cons_zero, Option.some.injEq] at hk
      subst hk
      exact ⟨_, by simp, hab⟩
    | succ k =>
      simp only [List.getElem?_cons_succ] at hk
      obtain ⟨b, hb1, hb2⟩ := ih k hk
      exact ⟨b, by simpa using hb1, hb2⟩

/-- C3: when a pattern source parses, the vectors `patterns`, `flags` and
`ids` all have as many entries as the source has lines that are not skipped,
and for every `k` their `k`-th entries are the expression, the flag bits and
the id that the loop body reads from the `k`-th such line, in source order.
Nothing in this depends on the id values: a line repeating an earlier id
contributes its entry like any other. -/
theorem parseFile_keeps_line_order (H : HsHeader) (src : Str) (v : Vectors)
    (h : parseFile H (some src) Vectors.empty = .ok v) :
    v.patterns.length = ((getlines src).filter (fun l => !skipped l)).length ∧
    v.flags.length = ((getlines src).filter (fun l => !skipped l)).length ∧
    v.ids.length = ((getlines src).filter (fun l => !skipped l)).length ∧
    ∀ (k : Nat) (line : Str),
      ((getlines src).filter (fun l => !skipped l))[k]? = some line →
      ∃ pcre flag id, v.patterns[k]? = some pcre ∧ v.flags[k]? = some flag ∧
        v.ids[k]? = some id ∧ ∀ i, parseEntry H line i = .ok (pcre, flag, id) := by
  obtain ⟨entries, h1, h2, h3, h4⟩ := parseLoop_entries H (getlines src) 1 Vectors.empty v h
  simp only [Vectors.empty, List.nil_append] at h1 h2 h3
  have hlen := h4.length_eq
  refine ⟨by rw [h1, List.length_map, hlen], by rw [h2, List.length_map, hlen],
    by rw [h3, List.length_map, hlen], ?_⟩
  intro k line hk
  obtain ⟨e, he1, he2⟩ := forall₂_getElem? _ _ _ h4 k line hk
  refine ⟨e.1, e.2.1, e.2.2, ?_, ?_, ?_, he2⟩
  · rw [h1, List.getElem?_map, he1]; rfl
  · rw [h2, List.getElem?_map, he1]; rfl
  · rw [h3, List.getElem?_map, he1]; rfl

/-- Witness of C3: ids 5, 3, 5 in that order, around a comment and an empty
line: the source parses, and the three vectors have as many entries as there
are lines that are not skipped. -/
theorem parseFile_keeps_line_order_witness :
    parseFile hs_h (some "5:/a/\n# c\n3:/b/i\n\n5:/c/\n".toList) Vectors.empty =
      .ok ⟨["a".toList, "b".toList, "c".toList], [0, 1, 0], [5, 3, 5]⟩ ∧
    ([5, 3, 5] : List Nat).length =
      ((getlines "5:/a/\n# c\n3:/b/i\n\n5:/c/\n".toList).filter
        (fun l => !skipped l)).length :=
  ⟨by decide,
    (parseFile_keeps_line_order hs_h "5:/a/\n# c\n3:/b/i\n\n5:/c/\n".toList
      ⟨["a".toList, "b".toList, "c".toList], [0, 1, 0], [5, 3, 5]⟩ (by decide)).2.2.1⟩

/-! ## `std::stoi` on the text before the colon -/

theorem c_str_cons (a : Char) (t : Str) (h : a ≠ '\x00') : c_str (a :: t) = a :: c_str t := by
  simp [c_str, List.takeWhile, h]

theorem c_str_nul (t : Str) : c_str ('\x00' :: t) = [] := by
  simp [c_str, List.takeWhile]

theorem isspace_ne_nul (a : Char) (h : isspace a = true) : a ≠ '\x00' := by
  rintro rfl
  revert h
  decide

theorem dropWhile_isspace_c_str (s : Str) :
    (c_str s).dropWhile isspace = c_str (s.dropWhile isspace) := by
  induction s with
  | nil => rfl
  | cons a t ih =>
    by_cases ha : a = '\x00'
    · subst ha
      rw [c_str_nul]
      have : isspace '\x00' = false := by decide
      simp [List.dropWhile, this, c_str_nul]
    · rw [c_str_cons a t ha]
      cases hsp : isspace a with
      | true => simp [List.dropWhile, hsp, ih]
      | false => simp [List.dropWhile, hsp, c_str_cons a t ha]

theorem takeWhile_isdigit_c_str (t : Str) :
    (c_str t).takeWhile isdigit = t.takeWhile isdigit := by
  induction t with
  | nil => rfl
  | cons a t ih =>
    by_cases ha : a = '\x00'
    · subst ha
      rw [c_str_nul]
      have : isdigit '\x00' = false := by decide
      simp [List.takeWhile, this]
    · rw [c_str_cons a t ha]
      cases hd : isdigit a with
      | true => simp [List.takeWhile, hd, ih]
      | false => simp [List.takeWhile, hd]

/-- Reading the id text back as a C string does not change what `stoi` makes
of it: a NUL is no white space, sign or digit. -/
theorem stoi_c_str (s : Str) : stoi (c_str s) = stoi s := by
  simp only [stoi, dropWhile_isspace_c_str]
  generalize s.dropWhile isspace = u
  cases u with
  | nil => rfl
  | cons a t =>
    by_cases ha : a = '\x00'
    · subst ha
      rw [c_str_nul]
      have : isdigit '\x00' = false := by decide
      simp [List.takeWhile, this]
    · rw [c_str_cons a t ha]
      by_cases hs : a = '-' ∨ a = '+'
      · simp only [List.head?_cons, Option.some.injEq, hs, if_true, List.tail_cons,
          takeWhile_isdigit_c_str]
      · simp only [List.head?_cons, Option.some.injEq, hs, if_false]
        cases hd : isdigit a with
        | true => simp [List.takeWhile, hd, takeWhile_isdigit_c_str]
        | false => simp [List.takeWhile, hd]

theorem takeWhile_nil_of_head (p : Char → Bool) (s : Str)
    (h : (match s.head? with | none => true | some c => !p c) = true) :
    s.takeWhile p = [] := by
  cases s with
  | nil => rfl
  | cons a t =>
    simp only [List.head?_cons, Bool.not_eq_true'] at h
    simp [List.takeWhile, h]

/-- Without a digit after the white space and the sign, `stoi` throws
`invalid_argument`. -/
theorem stoi_noLeadingDigit (s : Str) (h : noLeadingDigit s = true) :
    stoi s = .error .stoiInvalidArgument := by
  have h1 : (afterSign s).takeWhile isdigit = [] := takeWhile_nil_of_head isdigit _ h
  unfold afterSign at h1
  simp only [stoi]
  rw [if_pos h1]

theorem parseEntry_noLeadingDigit (H : HsHeader) (idStr expr : Str) (i : Nat)
    (hcolon : ':' ∉ idStr) (hid : noLeadingDigit idStr = true) :
    parseEntry H (idStr ++ ':' :: expr) i = .error .stoiInvalidArgument := by
  rw [parseEntry_split H idStr expr i hcolon, stoi_c_str, stoi_noLeadingDigit idStr hid]

theorem valid_lines (H : HsHeader) (pre : List Str)
    (hpre : ∀ x ∈ pre, '\n' ∉ x ∧ (skipped x = true ∨ ∃ e, ∀ i, parseEntry H x i = .ok e)) :
    ∀ x ∈ pre, skipped x = true ∨ ∃ e, parseEntry H x 0 = .ok e := by
  intro x hx
  rcases (hpre x hx).2 with h | ⟨e, he⟩
  · exact Or.inl h
  · exact Or.inr ⟨e, he 0⟩

theorem no_newline_lines (pre : List Str) (line : Str) (post : List Str)
    (hpre : ∀ x ∈ pre, '\n' ∉ x) (hline : '\n' ∉ line) (hpost : ∀ x ∈ post, '\n' ∉ x) :
    ∀ x ∈ pre ++ line :: post, '\n' ∉ x := by
  intro x hx
  simp only [List.mem_append, List.mem_cons] at hx
  rcases hx with hx | rfl | hx
  · exact hpre x hx
  · exact hline
  · exact hpost x hx

/-- After skipped or valid lines, a line on which the loop body fails makes
`parseFile` fail with that failure. -/
theorem parseFile_fail_at (H : HsHeader) (pre : List Str) (line : Str) (post : List Str)
    (v : Vectors) (f : Failure)
    (hpre : ∀ x ∈ pre, '\n' ∉ x ∧ (skipped x = true ∨ ∃ e, ∀ i, parseEntry H x i = .ok e))
    (hline : '\n' ∉ line) (hpost : ∀ x ∈ post, '\n' ∉ x) (hskip : skipped line = false)
    (hf : parseEntry H line ((1 + pre.length) % UINT_RANGE) = .error f) :
    parseFile H (some (joinLines (pre ++ line :: post))) v = .error f := by
  rw [parseFile_joinLines H _ v
    (no_newline_lines pre line post (fun x hx => (hpre x hx).1) hline hpost)]
  exact parseLoop_fail_at H pre line post 1 v f (by decide) (valid_lines H pre hpre) hskip hf

/-- C7, as amended: on a line that is not skipped, when the text before the
first colon does not begin, after leading white space and one optional sign,
with a decimal digit, the loop body fails at `std::stoi` (invalid id) and
`parseFile` fails with it, producing nothing; so do the id texts `abc` and the
empty one.  The lines `12abc:/a/`, ` 12:/a/` and `+5:/a/` are not rejected:
they are accepted, with the ids 12, 12 and 5. -/
theorem parseFile_id_without_digits (H : HsHeader) (pre : List Str) (idStr expr : Str)
    (post : List Str) (v : Vectors)
    (hpre : ∀ x ∈ pre, '\n' ∉ x ∧ (skipped x = true ∨ ∃ e, ∀ i, parseEntry H x i = .ok e))
    (hline : '\n' ∉ idStr ++ ':' :: expr) (hpost : ∀ x ∈ post, '\n' ∉ x)
    (hskip : skipped (idStr ++ ':' :: expr) = false) (hcolon : ':' ∉ idStr)
    (hid : noLeadingDigit idStr = true) :
    (∀ i w, parseLine H (idStr ++ ':' :: expr) i w = .error .stoiInvalidArgument) ∧
    parseFile H (some (joinLines (pre ++ (idStr ++ ':' :: expr) :: post))) v =
      .error .stoiInvalidArgument ∧
    parseFile H (some "abc:/a/".toList) Vectors.empty = .error .stoiInvalidArgument ∧
    parseFile H (some ":/a/".toList) Vectors.empty = .error .stoiInvalidArgument ∧
    parseFile H (some "12abc:/a/".toList) Vectors.empty = .ok ⟨["a".toList], [0], [12]⟩ ∧
    parseFile H (some " 12:/a/".toList) Vectors.empty = .ok ⟨["a".toList], [0], [12]⟩ ∧
    parseFile H (some "+5:/a/".toList) Vectors.empty = .ok ⟨["a".toList], [0], [5]⟩ := by
  refine ⟨?_, ?_, rfl, rfl, rfl, rfl, rfl⟩
  · intro i w
    rw [parseLine_entry H _ i w hskip, parseEntry_noLeadingDigit H idStr expr i hcolon hid]
  · exact parseFile_fail_at H pre _ post v _ hpre hline hpost hskip
      (parseEntry_noLeadingDigit H idStr expr _ hcolon hid)

/-- Witness of C7 as amended: after a comment and a valid line, the line
`x7:/b/` has no digit at the start of its id text. -/
theorem parseFile_id_without_digits_witness :
    parseFile hs_h (some "# ids\n1:/a/\nx7:/b/\n".toList) Vectors.empty =
      .error .stoiInvalidArgument :=
  (parseFile_id_without_digits hs_h ["# ids".toList, "1:/a/".toList] "x7".toList
    "/b/".toList [[]] Vectors.empty
    (by
      intro x hx
      simp only [List.mem_cons, List.mem_singleton, List.not_mem_nil, or_false] at hx
      rcases hx with rfl | rfl
      · exact ⟨by decide, Or.inl (by decide)⟩
      · exact ⟨by decide, Or.inr ⟨("a".toList, 0, 1), fun i => rfl⟩⟩)
    (by decide) (by decide) (by decide) (by decide) (by decide)).2.1

/-- C7, counterexample: the id text `12abc` is not a string of decimal digits,
and the line `12abc:/a/` is accepted, with id 12. -/
theorem parseFile_accepts_id_with_trailing_text :
    (¬ ∀ c ∈ "12abc".toList, isdigit c = true) ∧
    parseFile hs_h (some "12abc:/a/".toList) Vectors.empty =
      .ok ⟨["a".toList], [0], [12]⟩ := by
  decide

/-- C6, at the failing input: in `1:/is` the only slash of the expression
field `/is` is its first character (`find_last_of` gives 0), `flagsStart - 1`
wraps around, and the line is accepted with pattern `is` and flags `is`; the
same happens with `1:/`, accepted with an empty pattern. -/
theorem parseFile_only_leading_slash :
    find_last_of "/is".toList '/' = some 0 ∧
    size_sub 0 1 = npos ∧
    parseFile hs_h (some "1:/is".toList) Vectors.empty = .ok ⟨["is".toList], [3], [1]⟩ ∧
    parseFile hs_h (some "1:/".toList) Vectors.empty = .ok ⟨[[]], [0], [1]⟩ := by
  decide

/-- C8: `parseFlags` fails exactly on the strings that hold a character other
than i, m, s, H, V, 8, W and carriage return, and the failure names the first
such character from the left; hence a source with a line that is not skipped
and whose flags suffix (the text after the last slash of the expression field)
holds such a character is rejected as a whole.  The line `10:/a/z` fails with
unsupported flag `z`. -/
theorem parseFlags_fails_iff (H : HsHeader) (s : Str) :
    ((∃ f, parseFlags H s = .error f) ↔ ∃ c ∈ s, c ∉ acceptedFlagChars) ∧
    (∀ (pre : Str) (c : Char) (post : Str), s = pre ++ c :: post →
      (∀ x ∈ pre, x ∈ acceptedFlagChars) → c ∉ acceptedFlagChars →
      parseFlags H s = .error (.unsupportedFlag c)) ∧
    (∀ (src idStr expr : Str) (flagsStart : Nat) (v : Vectors),
      idStr ++ ':' :: expr ∈ getlines src → skipped (idStr ++ ':' :: expr) = false →
      ':' ∉ idStr → find_last_of expr '/' = some flagsStart →
      expr.drop (flagsStart + 1) = s → (∃ c ∈ s, c ∉ acceptedFlagChars) →
      ∃ f, parseFile H (some src) v = .error f) ∧
    parseFile H (some "10:/a/z".toList) Vectors.empty = .error (.unsupportedFlag 'z') := by
  refine ⟨parseFlags_error_iff H s, ?_, ?_, rfl⟩
  · intro pre c post hs hpre hc
    rw [hs]
    exact parseFlags_rejected H pre c post hpre hc
  · intro src idStr expr flagsStart v hmem hskip hcolon hlast hsuffix hbad
    obtain ⟨f, hf⟩ := (parseFlags_error_iff H s).mpr hbad
    apply parseLoop_error_of_mem H (getlines src) _ hmem hskip
    intro j
    rw [parseEntry_split H idStr expr j hcolon]
    cases stoi (c_str idStr) with
    | error e => exact ⟨e, rfl⟩
    | ok r =>
      simp only [hlast, hsuffix, hf]
      exact ⟨f, rfl⟩

/-- Witness of C8: in the flags `iz?` the first character that is not accepted
is `z`. -/
theorem parseFlags_fails_iff_witness :
    parseFlags hs_h ['i', 'z', '?'] = .error (.unsupportedFlag 'z') :=
  (parseFlags_fails_iff hs_h ['i', 'z', '?']).2.1 ['i'] 'z' ['?'] rfl (by decide) (by decide)

/-- C9: an empty line or a line that begins with `#`, whatever follows, is
passed over by the loop body without failure and without any entry; so a
source with such a line put in at any line position parses to the same vectors,
or fails with the same kind of failure, as the source without it.  The source
`# comment`, empty line, `10:/a/` gives exactly one entry. -/
theorem parseFile_skips_lines (H : HsHeader) (pre post : List Str) (l : Str) (v : Vectors)
    (hpre : ∀ x ∈ pre, '\n' ∉ x) (hpost : ∀ x ∈ post, '\n' ∉ x) (hl : '\n' ∉ l)
    (hskip : l = [] ∨ l.head? = some '#') :
    (∀ i w, parseLine H l i w = .ok w) ∧
    outcomeKind (parseFile H (some (joinLines (pre ++ l :: post))) v) =
      outcomeKind (parseFile H (some (joinLines (pre ++ post))) v) ∧
    parseFile H (some "# comment\n\n10:/a/\n".toList) Vectors.empty =
      .ok ⟨["a".toList], [0], [10]⟩ := by
  have hs : skipped l = true := by
    rcases hskip with h | h
    · simp [skipped, h]
    · simp [skipped, h]
  refine ⟨fun i w => parseLine_skipped H l i w hs, ?_, rfl⟩
  rw [parseFile_joinLines H _ v (no_newline_lines pre l post hpre hl hpost),
    parseFile_joinLines H _ v (by
      intro x hx
      rcases List.mem_append.mp hx with hx | hx
      · exact hpre x hx
      · exact hpost x hx),
    parseLoop_append H pre (l :: post) 1 v (by decide),
    parseLoop_append H pre post 1 v (by decide)]
  cases parseLoop H pre 1 v with
  | error e => rfl
  | ok v1 =>
    simp only [parseLoop, parseLine_skipped H l _ v1 hs]
    exact parseLoop_kind H post _ _ v1

/-- Witness of C9: a comment line put in between two pattern lines. -/
theorem parseFile_skips_lines_witness :
    outcomeKind (parseFile hs_h (some "1:/a/\n#2:/b/\n3:/c/".toList) Vectors.empty) =
      outcomeKind (parseFile hs_h (some "1:/a/\n3:/c/".toList) Vectors.empty) :=
  (parseFile_skips_lines hs_h ["1:/a/".toList] ["3:/c/".toList] "#2:/b/".toList
    Vectors.empty (by decide) (by decide) (by decide) (Or.inr rfl)).2.1

/-- After skipped or valid lines, a line that is not skipped and has no colon
makes `parseFile` fail with the `Could not parse line` message, carrying the
value the `unsigned` counter has on that line. -/
theorem parseFile_no_colon (H : HsHeader) (pre post : List Str) (bad : Str) (v : Vectors)
    (hpre : ∀ x ∈ pre, '\n' ∉ x ∧ (skipped x = true ∨ ∃ e, ∀ i, parseEntry H x i = .ok e))
    (hbad : bad ≠ [] ∧ bad.head? ≠ some '#' ∧ ':' ∉ bad ∧ '\n' ∉ bad)
    (hpost : ∀ x ∈ post, '\n' ∉ x) :
    parseFile H (some (joinLines (pre ++ bad :: post))) v =
      .error (.couldNotParseLine ((pre.length + 1) % 2 ^ 32)) := by
  obtain ⟨h1, h2, h3, h4⟩ := hbad
  have hskip : skipped bad = false := by
    cases bad with
    | nil => exact absurd rfl h1
    | cons a t =>
      have : a ≠ '#' := fun e => h2 (by simp [e])
      simp [skipped, this]
  have := parseFile_fail_at H pre bad post v _ hpre h4 hpost hskip
    (parseEntry_no_colon H bad _ h3)
  rw [this, Nat.add_comm 1 pre.length]
  rfl

/-- C10, as amended: when the first `k - 1` lines of a source are skipped or
valid and the `k`-th line is not empty, does not begin with `#` and has no
colon, `parseFile` fails with the `Could not parse line` message carrying the
value of the 32-bit counter, `k` modulo `2^32`, hence `k` itself (counted from
1, skipped lines included) for a source of fewer than `2^32` lines.  The line
`10/a/i` fails this way at line 1. -/
theorem parseFile_missing_colon_line (H : HsHeader) (pre post : List Str) (bad : Str)
    (v : Vectors)
    (hpre : ∀ x ∈ pre, '\n' ∉ x ∧ (skipped x = true ∨ ∃ e, ∀ i, parseEntry H x i = .ok e))
    (hbad : bad ≠ [] ∧ bad.head? ≠ some '#' ∧ ':' ∉ bad ∧ '\n' ∉ bad)
    (hpost : ∀ x ∈ post, '\n' ∉ x) :
    parseFile H (some (joinLines (pre ++ bad :: post))) v =
      .error (.couldNotParseLine ((pre.length + 1) % 2 ^ 32)) ∧
    (pre.length + 1 < 2 ^ 32 →
      parseFile H (some (joinLines (pre ++ bad :: post))) v =
        .error (.couldNotParseLine (pre.length + 1))) ∧
    parseFile H (some "10/a/i".toList) v = .error (.couldNotParseLine 1) := by
  have h := parseFile_no_colon H pre post bad v hpre hbad hpost
  refine ⟨h, fun hlt => ?_, rfl⟩
  rw [h, Nat.mod_eq_of_lt hlt]

/-- Witness of C10 as amended: the third line of the source, after a comment
and a valid line, has no colon. -/
theorem parseFile_missing_colon_line_witness :
    parseFile hs_h (some "# c\n1:/a/\n10/a/i\n2:/b/".toList) Vectors.empty =
      .error (.couldNotParseLine 3) :=
  (parseFile_missing_colon_line hs_h ["# c".toList, "1:/a/".toList] ["2:/b/".toList]
    "10/a/i".toList Vectors.empty
    (by
      intro x hx
      simp only [List.mem_cons, List.mem_singleton, List.not_mem_nil, or_false] at hx
      rcases hx with rfl | rfl
      · exact ⟨by decide, Or.inl (by decide)⟩
      · exact ⟨by decide, Or.inr ⟨("a".toList, 0, 1), fun i => rfl⟩⟩)
    (by decide) (by decide)).2.1 (by decide)

theorem joinLines_replicate (n : Nat) (l : Str) :
    joinLines (List.replicate n [] ++ [l]) = List.replicate n '\n' ++ l := by
  induction n with
  | zero => rfl
  | succ n ih =>
    rw [List.replicate_succ, List.cons_append, joinLines_cons _ _ (by simp), ih,
      List.replicate_succ]
    rfl

/-- C10, counterexample: in the source made of `2^32 - 1` empty lines followed
by the line `x`, that line is line number `2^32`; the counter is an `unsigned`
and has wrapped around to 0 there, so the failure carries 0 and not `2^32`. -/
theorem parseFile_line_counter_wraps :
    parseFile hs_h (some (List.replicate (2 ^ 32 - 1) '\n' ++ ['x'])) Vectors.empty =
      .error (.couldNotParseLine 0) ∧
    parseFile hs_h (some (List.replicate (2 ^ 32 - 1) '\n' ++ ['x'])) Vectors.empty ≠
      .error (.couldNotParseLine (2 ^ 32)) := by
  have h := parseFile_no_colon hs_h (List.replicate (2 ^ 32 - 1) []) [] ['x'] Vectors.empty
    (by
      intro x hx
      have hx2 : x = [] := List.eq_of_mem_replicate hx
      subst hx2
      exact ⟨by simp, Or.inl rfl⟩)
    (by decide) (by simp)
  rw [joinLines_replicate, List.length_replicate] at h
  have e : (2 ^ 32 - 1 + 1) % 2 ^ 32 = 0 := by norm_num
  rw [e] at h
  refine ⟨h, ?_⟩
  rw [h]
  intro hc
  injection hc with hc
  injection hc with hc
  revert hc
  norm_num

/-! ## Lines without a closing slash, carriage returns -/

theorem parseEntry_no_slash (H : HsHeader) (idStr expr : Str) (i : Nat) (r : Int)
    (hcolon : ':' ∉ idStr) (hid : stoi idStr = .ok r) (hs : '/' ∉ expr) :
    parseEntry H (idStr ++ ':' :: expr) i = .error .noTrailingSlash := by
  rw [parseEntry_split H idStr expr i hcolon, stoi_c_str, hid]
  simp only [(find_last_of_none expr '/').mpr hs]

/-- Lines without slash: on a line that is not skipped, whose id text (before the first colon)
is one that the id conversion accepts, as every decimal numeral up to
`2^31 - 1` is, and whose text after the first colon holds no slash at all
(it may be empty), the loop body fails with the `no trailing /` message, and so
does `parseFile` when the lines before are skipped or valid; nothing is
produced.  The line `10:abc` fails this way. -/
theorem parseFile_no_slash (H : HsHeader) (pre : List Str) (idStr expr : Str)
    (post : List Str) (v : Vectors) (r : Int)
    (hpre : ∀ x ∈ pre, '\n' ∉ x ∧ (skipped x = true ∨ ∃ e, ∀ i, parseEntry H x i = .ok e))
    (hline : '\n' ∉ idStr ++ ':' :: expr) (hpost : ∀ x ∈ post, '\n' ∉ x)
    (hskip : skipped (idStr ++ ':' :: expr) = false) (hcolon : ':' ∉ idStr)
    (hid : stoi idStr = .ok r) (hs : '/' ∉ expr) :
    (∀ i w, parseLine H (idStr ++ ':' :: expr) i w = .error .noTrailingSlash) ∧
    parseFile H (some (joinLines (pre ++ (idStr ++ ':' :: expr) :: post))) v =
      .error .noTrailingSlash ∧
    (∀ (n : Nat) (i : Nat) (w : Vectors), n ≤ 2 ^ 31 - 1 →
      parseLine H (Nat.toDigits 10 n ++ ':' :: expr) i w = .error .noTrailingSlash) ∧
    parseFile H (some "10:abc".toList) Vectors.empty = .error .noTrailingSlash ∧
    parseFile H (some "10:".toList) Vectors.empty = .error .noTrailingSlash := by
  refine ⟨?_, ?_, ?_, rfl, rfl⟩
  · intro i w
    rw [parseLine_entry H _ i w hskip, parseEntry_no_slash H idStr expr i r hcolon hid hs]
  · exact parseFile_fail_at H pre _ post v _ hpre hline hpost hskip
      (parseEntry_no_slash H idStr expr _ r hcolon hid hs)
  · intro n i w hn
    obtain ⟨h1, h2, h3⟩ := toDigits_spec n
    have hc : ':' ∉ Nat.toDigits 10 n := fun hc => (isdigit_not_special _ (h2 _ hc)).2.2.2.1 rfl
    have hst : stoi (Nat.toDigits 10 n) = .ok (digitsValue (Nat.toDigits 10 n) : Int) :=
      stoi_digits _ h1 h2 (by rw [h3]; exact hn)
    rw [parseLine_entry H _ i w (skipped_digits _ _ h1 h2),
      parseEntry_no_slash H _ expr i _ hc hst hs]

/-- Lines without slash, an instance: after a valid line, the line `7:foo` has no slash. -/
theorem parseFile_no_slash_witness :
    parseFile hs_h (some "1:/a/\n7:foo\n".toList) Vectors.empty = .error .noTrailingSlash :=
  (parseFile_no_slash hs_h ["1:/a/".toList] "7".toList "foo".toList [[]] Vectors.empty 7
    (by
      intro x hx
      simp only [List.mem_singleton] at hx
      subst hx
      exact ⟨by decide, Or.inr ⟨("a".toList, 0, 1), fun i => rfl⟩⟩)
    (by decide) (by decide) (by decide) (by decide) (by decide) (by decide)).2.1

/-- C11, at the failing input: the lines `3000000000:abc` and `4294967295:` have
a decimal id text and no slash after the colon, and fail at `std::stoi` with
`out_of_range`, before the slash is looked for; `10:abc`, with an id text
inside `int`, fails with the `no trailing /` message. -/
theorem parseFile_no_slash_large_id :
    parseFile hs_h (some "3000000000:abc".toList) Vectors.empty = .error .stoiOutOfRange ∧
    parseFile hs_h (some "4294967295:".toList) Vectors.empty = .error .stoiOutOfRange ∧
    parseFile hs_h (some "10:abc".toList) Vectors.empty = .error .noTrailingSlash := by
  decide

theorem find_last_of_snoc (s : Str) (c x : Char) (h : x ≠ c) :
    find_last_of (s ++ [x]) c = find_last_of s c := by
  induction s with
  | nil => simp [find_last_of, h]
  | cons a t ih =>
    have e1 : find_last_of (a :: (t ++ [x])) c =
        (match find_last_of (t ++ [x]) c with
          | some k => some (k + 1)
          | none => if a = c then some 0 else none) := rfl
    rw [List.cons_append, e1, ih]
    rfl

theorem parseFlagsLoop_snoc_cr (H : HsHeader) (s : Str) (acc : Nat) :
    parseFlagsLoop H (s ++ ['\r']) acc = parseFlagsLoop H s acc := by
  induction s generalizing acc with
  | nil => simp [parseFlagsLoop]
  | cons a t ih =>
    simp only [List.cons_append, parseFlagsLoop]
    split_ifs <;> first | rfl | exact ih _

/-- Where the last slash of the expression field is not its first character, a
carriage return put at the end of an accepted line changes nothing: same
pattern, same flags, same id. -/
theorem parseEntry_snoc_cr (H : HsHeader) (idStr expr : Str) (i flagsStart : Nat)
    (e : Str × Nat × Nat) (hcolon : ':' ∉ idStr)
    (hlast : find_last_of expr '/' = some flagsStart) (hpos : 1 ≤ flagsStart)
    (hok : parseEntry H (idStr ++ ':' :: expr) i = .ok e) :
    parseEntry H ((idStr ++ ':' :: expr) ++ ['\r']) i = .ok e := by
  have hlt := find_last_of_lt expr '/' flagsStart hlast
  have hline : (idStr ++ ':' :: expr) ++ ['\r'] = idStr ++ ':' :: (expr ++ ['\r']) := by simp
  have hlast2 : find_last_of (expr ++ ['\r']) '/' = some flagsStart := by
    rw [find_last_of_snoc expr '/' '\r' (by decide)]; exact hlast
  have hdrop : (expr ++ ['\r']).drop (flagsStart + 1) = expr.drop (flagsStart + 1) ++ ['\r'] :=
    List.drop_append_of_le_length (by omega)
  have hsub : size_sub flagsStart 1 = flagsStart - 1 := by simp [size_sub, hpos]
  have hbody : ((expr ++ ['\r']).drop 1).take (flagsStart - 1) =
      (expr.drop 1).take (flagsStart - 1) := by
    rw [List.drop_append_of_le_length (by omega)]
    apply List.take_append_of_le_length
    simp only [List.length_drop]
    omega
  rw [parseEntry_split H idStr expr i hcolon] at hok
  rw [hline, parseEntry_split H idStr _ i hcolon]
  cases hst : stoi (c_str idStr) with
  | error f => rw [hst] at hok; cases hok
  | ok r =>
    rw [hst] at hok
    simp only [hlast, hsub] at hok
    simp only [hlast2, hdrop, hsub, hbody]
    have hfl : parseFlags H (expr.drop (flagsStart + 1) ++ ['\r']) =
        parseFlags H (expr.drop (flagsStart + 1)) := parseFlagsLoop_snoc_cr H _ 0
    rw [hfl]
    exact hok

/-- C12, at the failing input: the line `1:/i` is accepted with pattern `i`
(its expression field `/i` has its only slash first, the case of C6); with a
carriage return at its end it is accepted with the pattern `i` followed by a
carriage return, not with the same pattern.  The line `1:/a/i` and the same
line with a carriage return at its end give the same entry. -/
theorem parseFile_carriage_return_in_pattern :
    parseFile hs_h (some "1:/i".toList) Vectors.empty = .ok ⟨[['i']], [1], [1]⟩ ∧
    parseFile hs_h (some "1:/i\r".toList) Vectors.empty = .ok ⟨[['i', '\r']], [1], [1]⟩ ∧
    parseFile hs_h (some "1:/a/i\r".toList) Vectors.empty =
      parseFile hs_h (some "1:/a/i".toList) Vectors.empty := by
  decide

/-- C19: a line that is only a carriage return is not skipped; it has no colon,
so the loop body fails on it with the `Could not parse line` message, and
`parseFile` fails there when the lines before are skipped or valid (the blank
second line of a CRLF source), although a carriage return after the flags is
ignored.  A line in which a carriage return or other white space comes before
`#` is not skipped either: the loop body treats it as a pattern line. -/
theorem parseFile_lone_carriage_return (H : HsHeader) (pre post : List Str) (v : Vectors)
    (hpre : ∀ x ∈ pre, '\n' ∉ x ∧ (skipped x = true ∨ ∃ e, ∀ i, parseEntry H x i = .ok e))
    (hpost : ∀ x ∈ post, '\n' ∉ x) :
    skipped ['\r'] = false ∧
    (∀ i w, parseLine H ['\r'] i w = .error (.couldNotParseLine i)) ∧
    parseFile H (some (joinLines (pre ++ ['\r'] :: post))) v =
      .error (.couldNotParseLine ((pre.length + 1) % 2 ^ 32)) ∧
    parseFile H (some "1:/a/i\r\n\r\n2:/b/\r\n".toList) Vectors.empty =
      .error (.couldNotParseLine 2) ∧
    parseFile H (some "1:/a/\r".toList) Vectors.empty = .ok ⟨["a".toList], [0], [1]⟩ ∧
    (∀ (c : Char) (rest : Str), c ≠ '#' → skipped (c :: '#' :: rest) = false) ∧
    (∀ rest : Str, skipped ('\r' :: '#' :: rest) = false ∧
      skipped (' ' :: '#' :: rest) = false ∧ skipped ('\t' :: '#' :: rest) = false) ∧
    (∀ i w, parseLine H "\r# c".toList i w = .error (.couldNotParseLine i)) ∧
    (∀ i w, parseLine H " # c".toList i w = .error (.couldNotParseLine i)) ∧
    (∀ w, parseLine H " #1:/a/".toList 1 w = .error .stoiInvalidArgument) := by
  refine ⟨rfl, fun i w => rfl, ?_, ?_, rfl, ?_, ?_, fun i w => rfl, fun i w => rfl,
    fun w => rfl⟩
  · exact parseFile_no_colon H pre post ['\r'] v hpre
      ⟨by decide, by decide, by decide, by decide⟩ hpost
  · simp [parseFile, getlines, parseLoop, parseLine, skipped, parseEntry, find_first_of,
      find_last_of, substr, substr_from, c_str, stoi, isspace, isdigit, digitsValue, size_sub,
      parseFlags, parseFlagsLoop, unsigned_of_int, INT_MIN, INT_MAX, Vectors.empty, npos,
      UINT_RANGE]
  · intro c rest hc
    simp [skipped, hc]
  · intro rest
    exact ⟨by simp [skipped], by simp [skipped], by simp [skipped]⟩

/-- Witness of C19: a CRLF source whose third line is blank. -/
theorem parseFile_lone_carriage_return_witness :
    parseFile hs_h (some "# c\r\n1:/a/\r\n\r\n2:/b/".toList) Vectors.empty =
      .error (.couldNotParseLine 3) :=
  (parseFile_lone_carriage_return hs_h ["# c\r".toList, "1:/a/\r".toList] ["2:/b/".toList]
    Vectors.empty
    (by
      intro x hx
      simp only [List.mem_cons, List.mem_singleton, List.not_mem_nil, or_false] at hx
      rcases hx with rfl | rfl
      · exact ⟨by decide, Or.inl (by decide)⟩
      · exact ⟨by decide, Or.inr ⟨("a".toList, 0, 1), fun i => rfl⟩⟩)
    (by decide)).2.2.1

/-! ## The engine handle -/

/-- C13: the handle that `create_hyperscan_engine` returns holds no database
and no scratch region; and on a handle that holds no database `scratch`
apart, `scan_single` ends with the `no Hyperscan engine has been compiled`
failure for every buffer, whatever the engine would report for a scan (it is
not asked) and without any match id, `-1` included. -/
theorem scan_single_not_ready (H : HsHeader) (e : HyperscanEngine) (he : e.db = none) :
    create_hyperscan_engine.db = none ∧ create_hyperscan_engine.scratch = none ∧
    (∀ (data : Option Str) (run : ScanRun),
      scan_single H (some e) data run = .error .noInputOrNoEngine) ∧
    (∀ (data : Option Str) (run : ScanRun),
      scan_single H (some create_hyperscan_engine) data run = .error .noInputOrNoEngine) ∧
    (∀ (data : Option Str) (run : ScanRun) (m : Int),
      scan_single H (some e) data run ≠ .ok m) := by
  have h1 : ∀ (data : Option Str) (run : ScanRun),
      scan_single H (some e) data run = .error .noInputOrNoEngine := by
    intro data run
    cases data with
    | none => rfl
    | some d => simp [scan_single, he]
  refine ⟨rfl, rfl, h1, ?_, ?_⟩
  · intro data run
    cases data <;> rfl
  · intro data run m hm
    rw [h1 data run] at hm
    cases hm

/-- Witness of C13: a handle without database, scanned on the buffer `ab` while
the engine would have reported a match. -/
theorem scan_single_not_ready_witness :
    scan_single hs_h (some ⟨none, some 4⟩) (some ['a', 'b']) ⟨[⟨7, 0, 1, 0⟩], 0⟩ =
      .error .noInputOrNoEngine :=
  (scan_single_not_ready hs_h ⟨none, some 4⟩ rfl).2.2.1 (some ['a', 'b']) ⟨[⟨7, 0, 1, 0⟩], 0⟩

theorem hs_free_scratch_databases (scratch : hs_scratch_ptr) (heap : HsHeap) :
    (hs_free_scratch scratch heap).databases = heap.databases := by
  cases scratch <;> rfl

theorem hs_free_scratch_next (scratch : hs_scratch_ptr) (heap : HsHeap) :
    (hs_free_scratch scratch heap).next = heap.next := by
  cases scratch <;> rfl

/-- A `compile_block_db` call that returns has parsed the source, compiled it and
obtained scratch space; the handle then holds the database just allocated, which
is one more live database in the account, and a scratch region. -/
theorem compile_block_db_returns (H : HsHeader) (O : HsOracle) (engine : HyperscanEngine)
    (file : Option Str) (heap : HsHeap)
    (h : (compile_block_db H O engine file heap).failure = none) :
    ∃ v, parseFile H file Vectors.empty = .ok v ∧
      O.compile_multi (v.patterns.map c_str) v.flags v.ids H.HS_MODE_BLOCK = none ∧
      (O.alloc_scratch heap.next engine.scratch = .kept ∨
        O.alloc_scratch heap.next engine.scratch = .replaced) ∧
      (compile_block_db H O engine file heap).engine.db = some heap.next ∧
      (compile_block_db H O engine file heap).heap.databases = heap.next :: heap.databases ∧
      heap.next < (compile_block_db H O engine file heap).heap.next ∧
      ∃ s, (compile_block_db H O engine file heap).engine.scratch = some s := by
  cases hp : parseFile H file Vectors.empty with
  | error f => simp [compile_block_db, hp] at h
  | ok v =>
    cases hc : O.compile_multi (v.patterns.map c_str) v.flags v.ids H.HS_MODE_BLOCK with
    | some err => simp [compile_block_db, hp, buildDatabase, hs_compile_multi, hc] at h
    | none =>
      refine ⟨v, rfl, hc, ?_⟩
      cases ha : O.alloc_scratch heap.next engine.scratch with
      | kept =>
        cases hs : engine.scratch with
        | none =>
          rw [hs] at ha
          simp [compile_block_db, hp, buildDatabase, hs_compile_multi, hc,
            HyperscanEngine.set_database, hs_alloc_scratch, ha, hs]
          omega
        | some s0 =>
          rw [hs] at ha
          simp [compile_block_db, hp, buildDatabase, hs_compile_multi, hc,
            HyperscanEngine.set_database, hs_alloc_scratch, ha, hs]
      | replaced =>
        simp [compile_block_db, hp, buildDatabase, hs_compile_multi, hc,
          HyperscanEngine.set_database, hs_alloc_scratch, ha, hs_free_scratch_databases,
          hs_free_scratch_next]
        omega
      | failedUntouched =>
        simp [compile_block_db, hp, buildDatabase, hs_compile_multi, hc,
          HyperscanEngine.set_database, hs_alloc_scratch, ha] at h
      | failedFreed =>
        simp [compile_block_db, hp, buildDatabase, hs_compile_multi, hc,
          HyperscanEngine.set_database, hs_alloc_scratch, ha] at h

/-- Two `compile_block_db` calls on one handle that both return leave two live
databases more than there were: the one of the second call, which the handle
holds, and the one of the first call, which nothing holds any more. -/
theorem compile_block_db_twice (H : HsHeader) (O : HsOracle) (engine : HyperscanEngine)
    (file1 file2 : Option Str) (heap : HsHeap)
    (h1 : (compile_block_db H O engine file1 heap).failure = none)
    (h2 : (compile_block_db H O (compile_block_db H O engine file1 heap).engine file2
      (compile_block_db H O engine file1 heap).heap).failure = none) :
    ∃ d1 d2, d1 ≠ d2 ∧
      (compile_block_db H O (compile_block_db H O engine file1 heap).engine file2
        (compile_block_db H O engine file1 heap).heap).heap.databases =
          d2 :: d1 :: heap.databases ∧
      (compile_block_db H O (compile_block_db H O engine file1 heap).engine file2
        (compile_block_db H O engine file1 heap).heap).engine.db = some d2 := by
  obtain ⟨_, _, _, _, _, hdb1, hn1, _⟩ := compile_block_db_returns H O engine file1 heap h1
  obtain ⟨_, _, _, _, hd2, hdb2, _, _⟩ := compile_block_db_returns H O _ file2 _ h2
  refine ⟨heap.next, (compile_block_db H O engine file1 heap).heap.next, by omega, ?_, hd2⟩
  rw [hdb2, hdb1]

/-- C14, at the failing input: two pattern sources compiled one after the other
on a fresh handle, with an engine that accepts both and keeps the scratch region
it has.  After the second call the account holds two live databases, 2 and 0:
the handle holds 2, and 0, the database of the first call, was never freed.
One scratch region is live. -/
theorem compile_block_db_leaks_first_database :
    compile_block_db hs_h obligingOracle create_hyperscan_engine (some "1:/a/".toList)
      HsHeap.empty = ⟨none, ⟨some 0, some 1⟩, ⟨2, [0], [1]⟩⟩ ∧
    compile_block_db hs_h obligingOracle ⟨some 0, some 1⟩ (some "2:/b/".toList)
      ⟨2, [0], [1]⟩ = ⟨none, ⟨some 2, some 1⟩, ⟨3, [2, 0], [1]⟩⟩ := by
  decide

/-- C15, as amended: when `compile_block_db` fails while parsing the source or
while building the database, the handle and the account of the engine are what
they were before the call; and the call returns, with the new database and a
scratch region in the handle, exactly when parsing, building and the scratch
allocation have all succeeded. -/
theorem compile_block_db_outcomes (H : HsHeader) (O : HsOracle) (engine : HyperscanEngine)
    (file : Option Str) (heap : HsHeap) :
    (∀ f, parseFile H file Vectors.empty = .error f →
      compile_block_db H O engine file heap = ⟨some f, engine, heap⟩) ∧
    (∀ v err, parseFile H file Vectors.empty = .ok v →
      O.compile_multi (v.patterns.map c_str) v.flags v.ids H.HS_MODE_BLOCK = some err →
      compile_block_db H O engine file heap =
        ⟨some (.compilationFailed err.expression), engine, heap⟩) ∧
    ((compile_block_db H O engine file heap).failure = none ↔
      ∃ v, parseFile H file Vectors.empty = .ok v ∧
        O.compile_multi (v.patterns.map c_str) v.flags v.ids H.HS_MODE_BLOCK = none ∧
        (O.alloc_scratch heap.next engine.scratch = .kept ∨
          O.alloc_scratch heap.next engine.scratch = .replaced)) ∧
    ((compile_block_db H O engine file heap).failure = none →
      (compile_block_db H O engine file heap).engine.db = some heap.next ∧
      heap.next ∈ (compile_block_db H O engine file heap).heap.databases ∧
      ∃ s, (compile_block_db H O engine file heap).engine.scratch = some s) := by
  refine ⟨?_, ?_, ⟨?_, ?_⟩, ?_⟩
  · intro f hf
    simp [compile_block_db, hf]
  · intro v err hv herr
    simp [compile_block_db, hv, buildDatabase, hs_compile_multi, herr]
  · intro h
    obtain ⟨v, h1, h2, h3, _⟩ := compile_block_db_returns H O engine file heap h
    exact ⟨v, h1, h2, h3⟩
  · rintro ⟨v, h1, h2, h3⟩
    rcases h3 with h3 | h3
    · cases hs : engine.scratch with
      | none =>
        rw [hs] at h3
        simp [compile_block_db, h1, buildDatabase, hs_compile_multi, h2,
          HyperscanEngine.set_database, hs_alloc_scratch, h3, hs]
      | some s0 =>
        rw [hs] at h3
        simp [compile_block_db, h1, buildDatabase, hs_compile_multi, h2,
          HyperscanEngine.set_database, hs_alloc_scratch, h3, hs]
    · simp [compile_block_db, h1, buildDatabase, hs_compile_multi, h2,
        HyperscanEngine.set_database, hs_alloc_scratch, h3]
  · intro h
    obtain ⟨_, _, _, _, h4, h5, _, h7⟩ := compile_block_db_returns H O engine file heap h
    exact ⟨h4, by rw [h5]; simp, h7⟩

/-- Witness of C15 as amended: a source without closing slash, on a handle
that holds database 5 and scratch region 6. -/
theorem compile_block_db_outcomes_witness :
    compile_block_db hs_h obligingOracle ⟨some 5, some 6⟩ (some "10:abc".toList)
      ⟨7, [5], [6]⟩ = ⟨some .noTrailingSlash, ⟨some 5, some 6⟩, ⟨7, [5], [6]⟩⟩ :=
  (compile_block_db_outcomes hs_h obligingOracle ⟨some 5, some 6⟩ (some "10:abc".toList)
    ⟨7, [5], [6]⟩).1 .noTrailingSlash (by decide)

/-- C15, counterexample: on a fresh handle, with a valid source and an engine
that fails the scratch allocation, `compile_block_db` fails, and at that moment
the handle holds database 0, the new one, where it held none before. -/
theorem compile_block_db_installs_before_scratch :
    create_hyperscan_engine.db = none ∧
    compile_block_db hs_h noScratchOracle create_hyperscan_engine (some "1:/a/".toList)
      HsHeap.empty = ⟨some .couldNotAllocateScratch, ⟨some 0, none⟩, ⟨1, [0], []⟩⟩ := by
  decide

/-- C16, as amended: on a handle that holds nothing, `clean` performs the
release and returns, the account of the engine unchanged (the engine ignores
the null pointers it is given to free); `scan_single` on such a handle ends
with the `no Hyperscan engine has been compiled` failure.  On a handle that
holds a database and a scratch region, `clean` frees both. -/
theorem clean_on_empty_handle (H : HsHeader) (e : HyperscanEngine) (heap : HsHeap)
    (hdb : e.db = none) (hscratch : e.scratch = none) :
    clean (some e) heap = .ok heap ∧
    (∀ (data : Option Str) (run : ScanRun),
      scan_single H (some e) data run = .error .noInputOrNoEngine) ∧
    (∀ d s : Nat, clean (some ⟨some d, some s⟩) heap =
      .ok ⟨heap.next, heap.databases.erase d, heap.scratches.erase s⟩) := by
  refine ⟨?_, ?_, fun d s => rfl⟩
  · simp [clean, HyperscanEngine.destructor, hdb, hscratch, hs_free_scratch, hs_free_database]
  · intro data run
    cases data with
    | none => rfl
    | some d => simp [scan_single, hdb]

/-- Witness of C16 as amended: the handle `create_hyperscan_engine` returns. -/
theorem clean_on_empty_handle_witness :
    clean (some create_hyperscan_engine) ⟨3, [0], [1]⟩ = .ok ⟨3, [0], [1]⟩ :=
  (clean_on_empty_handle hs_h create_hyperscan_engine ⟨3, [0], [1]⟩ rfl rfl).1

/-- C16, counterexample: `clean` on the handle that `create_hyperscan_engine`
returns, on which nothing was compiled, does not fail: it returns. -/
theorem clean_fresh_handle_returns :
    clean (some create_hyperscan_engine) HsHeap.empty = .ok HsHeap.empty ∧
    ¬ ∃ f, clean (some create_hyperscan_engine) HsHeap.empty = .error f := by
  refine ⟨rfl, ?_⟩
  rintro ⟨f, hf⟩
  cases hf

/-- C17, at the failing input: the id texts `2147483648` and `4294967295` are
outside `int`, `std::stoi` throws `out_of_range` and the line is not parsed;
`2147483647` is the largest id text accepted. -/
theorem parseFile_id_out_of_int_range :
    parseFile hs_h (some "2147483648:/a/".toList) Vectors.empty = .error .stoiOutOfRange ∧
    parseFile hs_h (some "4294967295:/a/".toList) Vectors.empty = .error .stoiOutOfRange ∧
    parseFile hs_h (some "2147483647:/a/".toList) Vectors.empty =
      .ok ⟨["a".toList], [0], [2147483647]⟩ := by
  decide

/-- C18, at the failing input: a single match with id 4294967295 makes
`scan_single` return `-1`, what it returns when there is no match at all; the
parser gives that id to the line `-1:/a/`. -/
theorem scan_single_sentinel_collision :
    scan_single hs_h (some ⟨some 0, some 1⟩) (some ['a'])
      ⟨[⟨4294967295, 0, 1, 0⟩], 0⟩ = .ok (-1) ∧
    scan_single hs_h (some ⟨some 0, some 1⟩) (some ['a']) ⟨[], 0⟩ = .ok (-1) ∧
    parseFile hs_h (some "-1:/a/".toList) Vectors.empty =
      .ok ⟨["a".toList], [0], [4294967295]⟩ := by
  decide
end Hyperscan
